import Mathlib

/-!
Verification development for the GameTool repository.

We shallowly embed the Python modules the specification talks about:
`value.py` (`PathResolver`), `gametool/cmd_parser.py` (tokenizer, help
generation, command registry, argument binding) and `gametool/event.py`
(`EventManager`).  Python values are modelled by the inductive `PyObj`;
Python exceptions by `PyExc`; fallible operations return `Except`.
Callbacks are modelled as pure data (a task is its return-time function,
an event subscriber is its id together with the subscriptions it performs
when invoked), matching the spec's reading of the code.
-/

namespace GameTool

/-- Dictionary keys occurring in the code under study are strings or ints
(`self.namespace` keys, `key=value` token keys, timestamp keys are handled
separately with exact rationals). -/
inductive PyKey where
  | s (s : String)
  | i (i : Int)
deriving DecidableEq, Repr

/-- Python values reachable by the code under study: `None`, booleans,
ints, floats (modelled as exact rationals; no claim depends on binary
rounding), strings, lists, dicts and plain class instances with an
attribute dictionary. -/
inductive PyObj where
  | none
  | bool (b : Bool)
  | int  (n : Int)
  | float (q : ℚ)
  | str  (s : String)
  | list (xs : List PyObj)
  | dict (entries : List (PyKey × PyObj))
  | obj  (attrs : List (String × PyObj))

/-- The exception classes distinguished by the `try/except` clauses in
`value.py` and `cmd_parser.py`. -/
inductive PyExc where
  | typeError
  | valueError
  | indexError
  | keyError
  | attributeError
deriving DecidableEq, Repr

/-- First-match association-list lookup (Python dict lookup; the dicts we
build never carry duplicate keys, so first-match agrees with Python). -/
def alookup {α β : Type} [DecidableEq α] : List (α × β) → α → Option β
  | [], _ => Option.none
  | (k, v) :: rest, a => if k = a then some v else alookup rest a

/-- Strip leading and trailing whitespace from a character list
(Python's `str.strip()` / the stripping done by `int(str)`). -/
def stripChars (l : List Char) : List Char :=
  ((l.dropWhile Char.isWhitespace).reverse.dropWhile Char.isWhitespace).reverse

/-- Python `str.strip()`. -/
def pyStrip (s : String) : String := String.mk (stripChars s.data)

/-- Digits-to-number accumulator for decimal strings. -/
def digitsVal (l : List Char) : Nat :=
  l.foldl (fun acc c => 10 * acc + (c.toNat - '0'.toNat)) 0

/-- `int(s)` for a decimal string: optional surrounding whitespace,
optional sign, then at least one digit (underscore grouping is not used by
the repository's inputs). `none` models `ValueError`. -/
def pyIntOfString (s : String) : Option Int :=
  let core : List Char → Option Nat := fun l =>
    if l ≠ [] ∧ l.all Char.isDigit then some (digitsVal l) else Option.none
  match stripChars s.data with
  | '-' :: rest => (core rest).map (fun n => -(n : Int))
  | '+' :: rest => (core rest).map (fun n => (n : Int))
  | l => (core l).map (fun n => (n : Int))

/-- `current[i]` for an integer index `i`: list/str indexing with negative
wrap-around, dict lookup by int key; everything else is unsubscriptable
(`TypeError`), as for the built-in types reachable here. -/
def subscriptInt : PyObj → Int → Except PyExc PyObj
  | .list xs, i =>
    let j := if i < 0 then i + xs.length else i
    if h : 0 ≤ j ∧ j.toNat < xs.length then .ok (xs.get ⟨j.toNat, h.2⟩)
    else .error .indexError
  | .str s, i =>
    let cs := s.data
    let j := if i < 0 then i + cs.length else i
    if h : 0 ≤ j ∧ j.toNat < cs.length then .ok (.str (String.mk [cs.get ⟨j.toNat, h.2⟩]))
    else .error .indexError
  | .dict es, i =>
    match alookup es (.i i) with
    | some v => .ok v
    | Option.none => .error .keyError
  | _, _ => .error .typeError

/-- `PathResolver._get_next` (value.py lines 76-95).  An `int` segment is
indexed directly (no surrounding `try`).  A string segment is first parsed
with `int(...)` and indexed, with `ValueError`/`TypeError` from that attempt
swallowed (`IndexError`/`KeyError` are not); then dict-key lookup; then
`getattr`.  `getattr` succeeds only on class instances here: the claims
never resolve a path to a method of a built-in type. -/
def getNextFallback (current : PyObj) (s : String) : Except PyExc PyObj :=
  match current with
  | .dict es =>
    match alookup es (.s s) with
    | some v => .ok v
    | Option.none => .error .keyError
  | .obj attrs =>
    match alookup attrs s with
    | some v => .ok v
    | Option.none => .error .attributeError
  | _ => .error .attributeError

def getNext (current : PyObj) : PyKey → Except PyExc PyObj
  | .i i => subscriptInt current i
  | .s s =>
    match pyIntOfString s with
    | some i =>
      match subscriptInt current i with
      | .ok v => .ok v
      | .error .typeError => getNextFallback current s
      | .error .valueError => getNextFallback current s
      | .error e => .error e
    | Option.none => getNextFallback current s

/-- A path argument: a dotted string or a list of string/int segments. -/
inductive PyPath where
  | strPath (s : String)
  | listPath (parts : List PyKey)

/-- Python `s.split('.')` on the underlying characters: every `'.'` is a
separator, so `""` gives `[""]` and adjacent dots give empty fields. -/
def splitDotAux : List Char → List Char → List String
  | [], acc => [String.mk acc.reverse]
  | '.' :: rest, acc => String.mk acc.reverse :: splitDotAux rest []
  | c :: rest, acc => splitDotAux rest (c :: acc)

def splitDot (s : String) : List String := splitDotAux s.data []

/-- `PathResolver._normalize_path`: a string splits on `'.'`; a list is
used as given. -/
def normalizePath : PyPath → List PyKey
  | .strPath s => (splitDot s).map .s
  | .listPath l => l

/-- Iterate `_get_next` over the segments (the `for` loop in `get`). -/
def resolveParts (cur : PyObj) : List PyKey → Except PyExc PyObj
  | [] => .ok cur
  | p :: ps =>
    match getNext cur p with
    | .ok v => resolveParts v ps
    | .error e => .error e

/-- `PathResolver.get` (value.py lines 17-36): resolve all segments,
catching `IndexError`, `KeyError` and `AttributeError` into the default;
any other exception (notably `TypeError` from an `int` segment) escapes to
the caller, which we model as `Except.error`. -/
def pathGet (obj : PyObj) (path : PyPath) (dflt : PyObj) : Except PyExc PyObj :=
  match resolveParts obj (normalizePath path) with
  | .ok v => .ok v
  | .error .indexError => .ok dflt
  | .error .keyError => .ok dflt
  | .error .attributeError => .ok dflt
  | .error e => .error e

/-!  ### Tokenizer (`CommandParser._tokenize_input`, cmd_parser.py 251-344) -/

/-- The escape translation: `\n` and `\t` become control characters, any
other escaped character stands for itself. -/
def escMap (c : Char) : Char :=
  if c = 'n' then '\n' else if c = 't' then '\t' else c

/-- The loop state of `_tokenize_input`: finished tokens, the current
token buffer (a char list, as in the source), the pending `key`, the open
quote if any, the escape flag, and the `value_process` flag. -/
structure TokState where
  tokens : List PyObj
  current : List Char
  key : String
  inQuote : Option Char
  escape : Bool
  valueProcess : Bool

/-- `finish_token`: emit the buffer as a plain string token, or as the
one-entry dict `{key: value}` when a `key=` is pending. -/
def finishToken (st : TokState) : TokState :=
  if st.valueProcess then
    { st with tokens := st.tokens ++ [.dict [(.s st.key, .str (String.mk st.current))]],
              valueProcess := false, current := [] }
  else
    { st with tokens := st.tokens ++ [.str (String.mk st.current)], current := [] }

/-- Variable substitution: `PathResolver.get(self.namespace, name, '$'+name)`.
A dotted-string path never raises (`C3`), so the error branch is dead. -/
def varLookup (ns : PyObj) (name : String) : PyObj :=
  match pathGet ns (.strPath name) (.str ("$" ++ name)) with
  | .ok v => v
  | .error _ => .str ("$" ++ name)

/-- The character loop of `_tokenize_input`, one constructor per branch of
the Python `while` body, in source order.  The `$` branch consumes the
variable name up to the next whitespace (the inner `while`) and appends
the resolved value, honouring a pending `key=`. -/
def tokenizeAux (ns : PyObj) : TokState → List Char → List PyObj
  | st, [] => if st.current ≠ [] then (finishToken st).tokens else st.tokens
  | st, c :: cs =>
    if st.escape then
      tokenizeAux ns { st with current := st.current ++ [escMap c], escape := false } cs
    else if c = '\\' then
      tokenizeAux ns { st with escape := true } cs
    else if st.inQuote.isSome then
      if st.inQuote = some c then
        tokenizeAux ns (finishToken { st with inQuote := Option.none }) cs
      else
        tokenizeAux ns { st with current := st.current ++ [c] } cs
    else if c = '"' ∨ c = '\'' then
      tokenizeAux ns { st with inQuote := some c } cs
    else if c = '$' ∧ st.current = [] then
      let nm := cs.takeWhile (fun d => !d.isWhitespace)
      let rest := cs.dropWhile (fun d => !d.isWhitespace)
      let varVal := varLookup ns (String.mk nm)
      if st.valueProcess then
        tokenizeAux ns { st with tokens := st.tokens ++ [.dict [(.s st.key, varVal)]],
                                 valueProcess := false } rest
      else
        tokenizeAux ns { st with tokens := st.tokens ++ [varVal] } rest
    else if c = '=' ∧ st.current ≠ [] then
      tokenizeAux ns { st with key := String.mk st.current, current := [],
                               valueProcess := true } cs
    else if c.isWhitespace then
      if st.current ≠ [] then tokenizeAux ns (finishToken st) cs
      else tokenizeAux ns st cs
    else
      tokenizeAux ns { st with current := st.current ++ [c] } cs
termination_by _ cs => cs.length
decreasing_by
  all_goals simp_wf
  all_goals exact Nat.lt_succ_of_le (List.dropWhile_suffix _).length_le

/-- The initial tokenizer state. -/
def initTokState : TokState :=
  { tokens := [], current := [], key := "", inQuote := Option.none,
    escape := false, valueProcess := false }

/-- `_tokenize_input`. -/
def tokenize (ns : PyObj) (input : String) : List PyObj :=
  tokenizeAux ns initTokState input.data

/-- A character with no special tokenizer meaning outside quotes: not a
quote, backslash, `$`, `=`, and not whitespace. -/
def Plain (c : Char) : Bool :=
  !(c = '"' || c = '\'' || c = '\\' || c = '$' || c = '=' || c.isWhitespace)

/-- Inside a quote, the remainder `cs` never closes quote `q`: reading
two characters for each escape, no unescaped `q` occurs. -/
def noClose (q : Char) : List Char → Bool
  | [] => true
  | c :: rest =>
    if c = '\\' then
      match rest with
      | [] => true
      | _ :: rest2 => noClose q rest2
    else (c ≠ q : Bool) && noClose q rest

/-- The content an unterminated quote contributes to the buffer: every
character verbatim, except that a backslash consumes the next character
through `escMap` (a lone trailing backslash contributes nothing). -/
def quoteContent : List Char → List Char
  | [] => []
  | c :: rest =>
    if c = '\\' then
      match rest with
      | [] => []
      | c2 :: rest2 => escMap c2 :: quoteContent rest2
    else c :: quoteContent rest

/-- What the trailing-buffer rule at end of input emits: one token built
by `finish_token` if the buffer is non-empty, nothing otherwise. -/
def trailingEmit (vp : Bool) (k : String) (content : List Char) : List PyObj :=
  if content ≠ [] then
    [if vp then .dict [(.s k, .str (String.mk content))] else .str (String.mk content)]
  else []

/-!  ### Command registry, help generation and argument binding
(cmd_parser.py: `_process_command_info`, `_show_command_help`,
`add_command`, `remove_command`, `_cmd_alias`, `_cmd_unalias`, `parse`) -/

/-- The Python types used as `type` entries by the commands under study. -/
inductive PyType where
  | int
  | str
  | bool
  | float
deriving DecidableEq, Repr

/-- `param_type.__name__`. -/
def pyTypeName : PyType → String
  | .int => "int"
  | .str => "str"
  | .bool => "bool"
  | .float => "float"

/-- `str(x)` for the values that reach help text and `str` conversion in
this repository (`None`, booleans, ints, strings; floats and containers
never appear as parameter defaults or converted values in the claims). -/
def pyStrOf : PyObj → String
  | .none => "None"
  | .bool b => if b then "True" else "False"
  | .int n => toString n
  | .float q => toString q
  | .str s => s
  | .list _ => "<list>"
  | .dict _ => "<dict>"
  | .obj _ => "<object>"

/-- `ParamInfo` (cmd_parser.py 10-15): every key optional. -/
structure ParamInfo where
  type? : Option PyType
  help? : Option String
  default? : Option PyObj
  keywordOnly? : Option Bool

/-- `CommandInfo` (cmd_parser.py 19-30): `func` plus optional keys; an
absent `params` key behaves exactly like an empty dict, so it is a list. -/
structure CommandInfo where
  func : String
  params : List (String × ParamInfo)
  help? : Option String
  returnInfo? : Option String
  acceptsArgs? : Option String
  acceptsKwargs? : Option String

/-- `ProcessedParamInfo` (cmd_parser.py 33-38): all four keys always
present. -/
structure ProcessedParamInfo where
  type : PyType
  default : PyObj
  optional : Bool
  keywordOnly : Bool

/-- `ProcessedCommandInfo` (cmd_parser.py 41-48): exactly these keys, so
`.get('help')` on it always misses. -/
structure ProcessedCommandInfo where
  func : String
  params : List (String × ProcessedParamInfo)
  shortHelp : String
  fullHelp : String
  acceptsArgs : Bool
  acceptsKwargs : Bool

/-- Truncate a help text at its first newline (`help_text.split('\n')[0]`,
applied only when a newline occurs — the result is the same either way). -/
def firstLine (s : String) : String := String.mk (s.data.takeWhile (· ≠ '\n'))

/-- `_process_command_info` (cmd_parser.py 500-589): normalize parameter
entries (a parameter with a `default` is keyword-only unless explicitly
overridden) and pre-generate `short_help` and `full_help`. -/
def processCommandInfo (ci : CommandInfo) : ProcessedCommandInfo :=
  let processedParams : List (String × ProcessedParamInfo) :=
    ci.params.map (fun p =>
      let keywordOnly :=
        match p.2.default? with
        | some _ => p.2.keywordOnly?.getD true
        | Option.none => p.2.keywordOnly?.getD false
      (p.1, { type := p.2.type?.getD .str, default := p.2.default?.getD .none,
              optional := p.2.default?.isSome, keywordOnly := keywordOnly }))
  let acceptsArgs := ci.acceptsArgs?.isSome
  let acceptsKwargs := ci.acceptsKwargs?.isSome
  let paramsStr := " ".intercalate (processedParams.map (fun p =>
    "[" ++ p.1 ++ (if p.2.optional then "?" else "") ++ "]"))
  let shortHelpParts :=
    (if paramsStr ≠ "" then [paramsStr] else []) ++
    (if acceptsArgs then ["[*args]"] else []) ++
    (if acceptsKwargs then ["[**kwargs]"] else [])
  let originalHelpText := ci.help?.getD "无说明"
  let helpText := firstLine originalHelpText
  let shortHelp :=
    if shortHelpParts ≠ [] then " ".intercalate shortHelpParts ++ " - " ++ helpText
    else "- " ++ helpText
  let fullHelp0 := originalHelpText ++ "\n\n"
  let fullHelp1 :=
    if processedParams.isEmpty then fullHelp0
    else
      fullHelp0 ++ "参数:\n" ++ String.join (processedParams.map (fun p =>
        "  " ++ p.1 ++ ": " ++ pyTypeName p.2.type ++ " (" ++
          (if p.2.optional then "可选" else "必需") ++ ")\n" ++
        (if p.2.optional then "    默认值: " ++ pyStrOf p.2.default ++ "\n"
         else "    默认值: 无默认值\n") ++
        (match (alookup ci.params p.1).bind (fun q => q.help?) with
         | some h => if h ≠ "" then "    说明: " ++ h ++ "\n" else ""
         | Option.none => "")))
  let fullHelp2 := fullHelp1 ++
    (if acceptsArgs then
      "\n可变位置参数 (*args):\n  说明: " ++ ci.acceptsArgs?.getD "无说明" ++ "\n" else "")
  let fullHelp3 := fullHelp2 ++
    (if acceptsKwargs then
      "\n可变关键字参数 (**kwargs):\n  说明: " ++ ci.acceptsKwargs?.getD "无说明" ++ "\n" else "")
  let fullHelp4 :=
    match ci.returnInfo? with
    | some r => fullHelp3 ++ "\n返回值: " ++ r
    | Option.none => fullHelp3
  { func := ci.func, params := processedParams, shortHelp := shortHelp,
    fullHelp := pyStrip fullHelp4, acceptsArgs := acceptsArgs, acceptsKwargs := acceptsKwargs }

/-- The mutable state of a `CommandParser`: the command dict and the alias
dict, in insertion order. -/
structure Registry where
  commands : List (String × ProcessedCommandInfo)
  aliases : List (String × String)

/-- The errors `parse` and the registry operations can signal. -/
inductive CmdErr where
  | valueError (msg : String)
  | notACommand (msg : String)
  | paramError (msg : String)
  | typeError (msg : String)
  | pyError (e : PyExc)
deriving DecidableEq, Repr

/-- Remove the entry with key `k` from an association list (`del d[k]`). -/
def eraseKey {α β : Type} [DecidableEq α] (k : α) : List (α × β) → List (α × β)
  | [] => []
  | (k2, v) :: rest => if k2 = k then rest else (k2, v) :: eraseKey k rest

/-- `resolve_command` (cmd_parser.py 192-201). -/
def resolveCommand (r : Registry) (c : String) : String :=
  (alookup r.aliases c).getD c

/-- The `CommandInfo` of the built-in `help` command (cmd_parser.py 70-81). -/
def helpCmdInfo : CommandInfo :=
  { func := "_cmd_help",
    params := [("command",
      { type? := some .str, help? := some "要查看帮助的特定命令",
        default? := some .none, keywordOnly? := some false })],
    help? := some "显示命令帮助信息", returnInfo? := Option.none,
    acceptsArgs? := Option.none, acceptsKwargs? := Option.none }

/-- The `CommandInfo` of the built-in `raw` command (cmd_parser.py 87-91). -/
def rawCmdInfo : CommandInfo :=
  { func := "_cmd_raw", params := [], help? := some "返回原始输入文本",
    returnInfo? := Option.none, acceptsArgs? := some "要返回的原始文本",
    acceptsKwargs? := Option.none }

/-- The `CommandInfo` of the built-in `alias` command (cmd_parser.py 97-110). -/
def aliasCmdInfo : CommandInfo :=
  { func := "_cmd_alias",
    params := [("alias", { type? := some .str, help? := some "要添加的别名",
                           default? := Option.none, keywordOnly? := Option.none }),
               ("command", { type? := some .str, help? := some "别名指向的命令",
                             default? := Option.none, keywordOnly? := Option.none })],
    help? := some "为命令添加别名", returnInfo? := Option.none,
    acceptsArgs? := Option.none, acceptsKwargs? := Option.none }

/-- The `CommandInfo` of the built-in `unalias` command (cmd_parser.py 116-125). -/
def unaliasCmdInfo : CommandInfo :=
  { func := "_cmd_unalias",
    params := [("alias", { type? := some .str, help? := some "要移除的别名",
                           default? := Option.none, keywordOnly? := Option.none })],
    help? := some "移除命令别名", returnInfo? := Option.none,
    acceptsArgs? := Option.none, acceptsKwargs? := Option.none }

/-- `__init__` + `_add_builtin_commands`: the four built-in commands and
their five default aliases, in insertion order. -/
def builtinRegistry : Registry :=
  { commands := [("help", processCommandInfo helpCmdInfo),
                 ("raw", processCommandInfo rawCmdInfo),
                 ("alias", processCommandInfo aliasCmdInfo),
                 ("unalias", processCommandInfo unaliasCmdInfo)],
    aliases := [("?", "help"), ("h", "help"), ("r", "raw"),
                ("a", "alias"), ("ua", "unalias")] }

/-- `_cmd_alias` (cmd_parser.py 155-175): target must exist, the name must
collide with no alias and no command; all checks precede the mutation, so
on error the registry is returned unchanged. -/
def cmdAlias (a c : String) (r : Registry) : Registry × Option CmdErr :=
  if (alookup r.commands c).isNone then
    (r, some (.valueError ("命令 '" ++ c ++ "' 不存在")))
  else if (alookup r.aliases a).isSome then
    (r, some (.valueError ("别名 '" ++ a ++ "' 已存在")))
  else if (alookup r.commands a).isSome then
    (r, some (.valueError ("'" ++ a ++ "' 已经是命令名称，不能作为别名")))
  else ({ r with aliases := r.aliases ++ [(a, c)] }, Option.none)

/-- `_cmd_unalias` (cmd_parser.py 177-190). -/
def cmdUnalias (a : String) (r : Registry) : Registry × Option CmdErr :=
  if (alookup r.aliases a).isNone then
    (r, some (.valueError ("别名 '" ++ a ++ "' 不存在")))
  else ({ r with aliases := eraseKey a r.aliases }, Option.none)

/-- `add_command` (cmd_parser.py 591-604): only a command-name collision is
checked — the alias dict is not consulted. -/
def addCommand (n : String) (ci : CommandInfo) (r : Registry) : Registry × Option CmdErr :=
  if (alookup r.commands n).isSome then
    (r, some (.valueError ("命令 '" ++ n ++ "' 已存在")))
  else ({ r with commands := r.commands ++ [(n, processCommandInfo ci)] }, Option.none)

/-- `remove_command` (cmd_parser.py 606-627): drop every alias pointing to
the command, then the command itself. -/
def removeCommand (n : String) (r : Registry) : Registry × Option CmdErr :=
  if (alookup r.commands n).isNone then
    (r, some (.notACommand ("命令 '" ++ n ++ "' 不存在")))
  else ({ commands := eraseKey n r.commands,
          aliases := r.aliases.filter (fun p => ¬(p.2 = n)) }, Option.none)

/-- `_show_command_help` (cmd_parser.py 215-249), one printed line per list
entry.  The command's dict is a `ProcessedCommandInfo`, which carries
exactly the keys `func/params/short_help/full_help/accepts_args/accepts_kwargs`:
hence `cmd_info.get('help', '无说明')` always yields `'无说明'`,
`'params' in cmd_info` is always true, `'default' in param_info` is always
true (so every parameter prints `(可选)`), `param_info.get('help', '无说明')`
always yields `'无说明'`, and `'accepts_args' in cmd_info` is always true,
so the stored booleans are printed via `str()`. -/
def showCommandHelp (r : Registry) (cmdName : String) : Except CmdErr (List String) :=
  let realCmd := resolveCommand r cmdName
  match alookup r.commands realCmd with
  | Option.none => .error (.notACommand ("未知命令: " ++ cmdName))
  | some info =>
    .ok (["命令: " ++ realCmd, "说明: 无说明", "参数:"] ++
      (info.params.map (fun p =>
        ["  " ++ p.1 ++ ": " ++ pyTypeName p.2.type ++ " (可选)",
         "    默认值: " ++ pyStrOf p.2.default,
         "    说明: 无说明"])).flatten ++
      ["  *args: " ++ pyStrOf (.bool info.acceptsArgs),
       "  **kwargs: " ++ pyStrOf (.bool info.acceptsKwargs)])

/-- Lower-case a Python string (`str.lower()`, ASCII as used here). -/
def lowerStr (s : String) : String := String.mk (s.data.map Char.toLower)

/-- `str.isdigit()` for ASCII digits: non-empty and all digits. -/
def pyIsDigitStr (l : List Char) : Bool := !l.isEmpty && l.all Char.isDigit

/-- `int(float)` truncates toward zero. -/
def ratTrunc (q : ℚ) : Int := if 0 ≤ q then ⌊q⌋ else ⌈q⌉

/-- `float(s)` for the decimal strings admitted by `try_convert_type`'s
guard: optional sign, digits with at most one dot (exponents and
specials are never produced by the guard in this repository). -/
def pyFloatOfString (s : String) : Option ℚ :=
  let core : List Char → Option ℚ := fun l =>
    let intPart := l.takeWhile (· ≠ '.')
    let rest := l.dropWhile (· ≠ '.')
    match rest with
    | [] =>
      if !intPart.isEmpty && intPart.all Char.isDigit then some ((digitsVal intPart : ℚ))
      else Option.none
    | _ :: frac =>
      if !(intPart ++ frac).isEmpty && (intPart ++ frac).all Char.isDigit &&
          frac.all (· ≠ '.') then
        some ((digitsVal intPart : ℚ) + (digitsVal frac : ℚ) / ((10 : ℚ) ^ frac.length))
      else Option.none
  match stripChars s.data with
  | '-' :: rest => (core rest).map (fun q => -q)
  | '+' :: rest => core rest
  | l => core l

/-- `isinstance(v, t)` for the types above (a Python `bool` is an `int`). -/
def pyIsInstance (v : PyObj) (t : PyType) : Bool :=
  match t, v with
  | .int, .int _ => true
  | .int, .bool _ => true
  | .str, .str _ => true
  | .bool, .bool _ => true
  | .float, .float _ => true
  | _, _ => false

/-- `param_type(arg_value)` — the conversion attempted by `process_param`,
with the Python exception class it raises on failure.  The `bool` case is
the special branch `arg_value.lower() in ('true','1','yes','y')`, whose
`.lower()` raises `AttributeError` on a non-string. -/
def pyConvert (t : PyType) (v : PyObj) : Except PyExc PyObj :=
  match t with
  | .bool =>
    match v with
    | .str s => .ok (.bool (["true", "1", "yes", "y"].contains (lowerStr s)))
    | _ => .error .attributeError
  | .int =>
    match v with
    | .str s =>
      match pyIntOfString s with
      | some n => .ok (.int n)
      | Option.none => .error .valueError
    | .int n => .ok (.int n)
    | .bool b => .ok (.int (if b then 1 else 0))
    | .float q => .ok (.int (ratTrunc q))
    | _ => .error .typeError
  | .str => .ok (.str (pyStrOf v))
  | .float =>
    match v with
    | .str s =>
      match pyFloatOfString s with
      | some q => .ok (.float q)
      | Option.none => .error .valueError
    | .int n => .ok (.float n)
    | .bool b => .ok (.float (if b then 1 else 0))
    | .float q => .ok (.float q)
    | _ => .error .typeError

/-- `process_param` (cmd_parser.py 390-417): identity if already the right
type; otherwise convert, turning `ValueError`/`TypeError` into
`TypeError("参数 … 需要 … 类型")`; other exceptions propagate raw. -/
def processParam (paramName : String) (pi : ProcessedParamInfo) (v : PyObj) :
    Except CmdErr PyObj :=
  if pyIsInstance v pi.type then .ok v
  else
    match pyConvert pi.type v with
    | .ok w => .ok w
    | .error .valueError =>
      .error (.typeError ("参数 " ++ paramName ++ " 需要 " ++ pyTypeName pi.type ++ " 类型"))
    | .error .typeError =>
      .error (.typeError ("参数 " ++ paramName ++ " 需要 " ++ pyTypeName pi.type ++ " 类型"))
    | .error e => .error (.pyError e)

/-- `value.replace('.', '', 1)`. -/
def dropFirstDot : List Char → List Char
  | [] => []
  | '.' :: rest => rest
  | c :: rest => c :: dropFirstDot rest

/-- `try_convert_type` (cmd_parser.py 419-439): digits → `int`, one-dot
digit string → `float`, `true`/`false` → `bool`, otherwise unchanged; a
non-string input raises `AttributeError` at `.isdigit()`, which the
`except (ValueError, AttributeError)` clause turns into the value itself. -/
def tryConvertType (v : PyObj) : PyObj :=
  match v with
  | .str s =>
    if pyIsDigitStr s.data then .int (digitsVal s.data)
    else if pyIsDigitStr (dropFirstDot s.data) && s.data.count '.' < 2 then
      match pyFloatOfString s with
      | some q => .float q
      | Option.none => .str s
    else if lowerStr s = "true" ∨ lowerStr s = "false" then
      .bool (lowerStr s = "true")
    else .str s
  | w => w

/-- `str(key)` for an error message mentioning a dict key. -/
def pyKeyStr : PyKey → String
  | .s s => s
  | .i i => toString i

/-- The function call `parse` would make: `func(*args_list, **merged_kwargs)`. -/
structure CallSpec where
  func : String
  argsList : List PyObj
  kwargs : List (PyKey × PyObj)

/-- First loop of `parse`'s binder: split tokens into `keyword_args_input`
(with the duplicate check) and `positional_args`, in order. -/
def splitArgs : List PyObj → List (PyKey × PyObj) → List PyObj →
    Except CmdErr (List (PyKey × PyObj) × List PyObj)
  | [], kwAcc, posAcc => .ok (kwAcc, posAcc)
  | a :: rest, kwAcc, posAcc =>
    match a with
    | .dict entries =>
      match addKwEntries entries kwAcc with
      | .ok kwAcc2 => splitArgs rest kwAcc2 posAcc
      | .error e => .error e
    | _ => splitArgs rest kwAcc (posAcc ++ [a])
where
  addKwEntries : List (PyKey × PyObj) → List (PyKey × PyObj) →
      Except CmdErr (List (PyKey × PyObj))
  | [], kwAcc => .ok kwAcc
  | (k, v) :: rest, kwAcc =>
    if (alookup kwAcc k).isSome then
      .error (.paramError ("参数 " ++ pyKeyStr k ++ " 被多次指定"))
    else addKwEntries rest (kwAcc ++ [(k, v)])

/-- Second step of the binder: process every keyword argument — a known
parameter name is converted and stored in `kwargs`, an unknown one goes to
`keyword_args` when `**kwargs` is accepted and is an error otherwise. -/
def processKwInputs (paramsInfo : List (String × ProcessedParamInfo))
    (acceptsKwargs : Bool) :
    List (PyKey × PyObj) → List (String × PyObj) → List (PyKey × PyObj) →
    Except CmdErr (List (String × PyObj) × List (PyKey × PyObj))
  | [], kwargs, keywordArgs => .ok (kwargs, keywordArgs)
  | (k, v) :: rest, kwargs, keywordArgs =>
    match k with
    | .s s =>
      match alookup paramsInfo s with
      | some pi =>
        match processParam s pi v with
        | .ok w => processKwInputs paramsInfo acceptsKwargs rest (kwargs ++ [(s, w)]) keywordArgs
        | .error e => .error e
      | Option.none =>
        if acceptsKwargs then
          processKwInputs paramsInfo acceptsKwargs rest kwargs (keywordArgs ++ [(k, v)])
        else .error (.paramError ("未知参数: " ++ s))
    | .i i =>
      if acceptsKwargs then
        processKwInputs paramsInfo acceptsKwargs rest kwargs (keywordArgs ++ [(k, v)])
      else .error (.paramError ("未知参数: " ++ toString i))

/-- Third step: assign positional arguments to the positionable parameters
in order; overflow goes to `*args` via `try_convert_type` when accepted and
raises `ParamError` otherwise. -/
def positionalLoop (positionable : List (String × ProcessedParamInfo))
    (acceptsArgs : Bool) :
    List PyObj → Nat → List (String × PyObj) → List PyObj →
    Except CmdErr (List (String × PyObj) × List PyObj)
  | [], _, kwargs, argsList => .ok (kwargs, argsList)
  | v :: rest, i, kwargs, argsList =>
    match positionable.get? i with
    | some p =>
      match processParam p.1 p.2 v with
      | .ok w => positionalLoop positionable acceptsArgs rest (i + 1) (kwargs ++ [(p.1, w)]) argsList
      | .error e => .error e
    | Option.none =>
      if acceptsArgs then
        positionalLoop positionable acceptsArgs rest (i + 1) kwargs (argsList ++ [tryConvertType v])
      else
        .error (.paramError ("参数过多，最多支持 " ++ toString positionable.length ++
          " 个位置参数"))

/-- Required check: the first non-optional parameter absent from `kwargs`
raises `ParamError`. -/
def checkRequired (paramsInfo : List (String × ProcessedParamInfo))
    (kwargs : List (String × PyObj)) : Option CmdErr :=
  match paramsInfo.find? (fun p => !p.2.optional && (alookup kwargs p.1).isNone) with
  | some p => some (.paramError ("缺少必需参数: " ++ p.1))
  | Option.none => Option.none

/-- `parse` after tokenization (cmd_parser.py 369-498), up to — but not
including — the final `func(*args_list, **merged_kwargs)` call, which is
returned as a `CallSpec`.  `{**kwargs, **keyword_args}` is their
concatenation: the two key sets are disjoint by construction. -/
def parseTokens (r : Registry) : List PyObj → Except CmdErr (Option CallSpec)
  | [] => .ok Option.none
  | cmdTok :: args =>
    match cmdTok with
    | .str c =>
      match alookup r.commands (resolveCommand r c) with
      | Option.none => .error (.notACommand "不是命令")
      | some info =>
        match splitArgs args [] [] with
        | .error e => .error e
        | .ok (kwInput, positional) =>
          match processKwInputs info.params info.acceptsKwargs kwInput [] [] with
          | .error e => .error e
          | .ok (kwargs, keywordArgs) =>
            let positionable := info.params.filter
              (fun p => (alookup kwargs p.1).isNone && !p.2.keywordOnly)
            match positionalLoop positionable info.acceptsArgs positional 0 kwargs [] with
            | .error e => .error e
            | .ok (kwargs2, argsList) =>
              match checkRequired info.params kwargs2 with
              | some e => .error e
              | Option.none =>
                .ok (some ⟨info.func, argsList,
                  kwargs2.map (fun p => (PyKey.s p.1, p.2)) ++ keywordArgs⟩)
    | _ => .error (.notACommand "不是命令")

/-- `parse` (cmd_parser.py 346-498): empty input is `None`, otherwise the
input is stripped, tokenized and bound. -/
def parseBind (r : Registry) (ns : PyObj) (userInput : String) :
    Except CmdErr (Option CallSpec) :=
  if (pyStrip userInput).data = [] then .ok Option.none
  else parseTokens r (tokenize ns (pyStrip userInput))

/-- The `greet(name: str, times: int = 1)` command of the claims: `times`
has a default and no explicit `keyword_only`, hence is keyword-only. -/
def greetCmdInfo : CommandInfo :=
  { func := "greet",
    params := [("name", { type? := some .str, help? := Option.none,
                          default? := Option.none, keywordOnly? := Option.none }),
               ("times", { type? := some .int, help? := Option.none,
                           default? := some (.int 1), keywordOnly? := Option.none })],
    help? := Option.none, returnInfo? := Option.none,
    acceptsArgs? := Option.none, acceptsKwargs? := Option.none }

/-- A parser with the built-ins plus `greet`. -/
def greetRegistry : Registry := (addCommand "greet" greetCmdInfo builtinRegistry).1

/-!  ### EventManager (event.py) -/

/-- A scheduled task: an identifier standing for the function object, and
its return-time behaviour `timestamp ↦ next` as a pure function — tasks
interact with the scheduler only through this return value, `0` standing
for a falsy return (`None` / `0`). -/
structure Task where
  tid : Nat
  ret : ℚ → ℚ

/-- An event subscriber: an identifier for the callback, the `persist`
flag, and the invocation effect — subscribing the given `(id, persist)`
pairs to the same event (callbacks are otherwise pure).  Equality is the
Python tuple equality `(func, persist)`: same callback, same flag. -/
structure Sub where
  fid : Nat
  persist : Bool
  spawns : List (Nat × Bool)
deriving DecidableEq

/-- The `EventManager` state.  `acts` entries are the booleans the pure
thunks return; timestamps are exact rationals (the claims' decimal
constants are order-robust, see C7). -/
structure EMState where
  acts : List Bool
  listeners : List (String × List Sub)
  times : List ℚ
  tasks : List (ℚ × List Task)

/-- Append a task to the per-timestamp list (`self.scheduled_tasks[t].append`). -/
def appendAt (t : ℚ) (f : Task) : List (ℚ × List Task) → List (ℚ × List Task)
  | [] => [(t, [f])]
  | (t2, l) :: rest => if t2 = t then (t2, l ++ [f]) :: rest else (t2, l) :: appendAt t f rest

/-- `schedule_task` (event.py 73-83): push the timestamp only when no task
list exists for it yet, then append. -/
def scheduleTask (t : ℚ) (f : Task) (st : EMState) : EMState :=
  if (alookup st.tasks t).isSome then { st with tasks := appendAt t f st.tasks }
  else { st with times := t :: st.times, tasks := st.tasks ++ [(t, [f])] }

/-- The minimum of the heap (`heapq` exposes the smallest element). -/
def minTime : List ℚ → Option ℚ
  | [] => Option.none
  | t :: rest =>
    match minTime rest with
    | Option.none => some t
    | some m => some (min t m)

/-- Remove one occurrence of a timestamp (`heapq.heappop` of the minimum). -/
def eraseTime (t : ℚ) : List ℚ → List ℚ
  | [] => []
  | t2 :: rest => if t2 = t then rest else t2 :: eraseTime t rest

/-- The `for task in tasks` body (event.py 39-47): run the task; a truthy
return is clamped with `max(next_time, timestamp + 0.05)` and
re-scheduled.  The clamp here is exact-rational; the source computes
`timestamp + 0.05` in binary floating point, which for
`timestamp ≥ 2^49` (ulp `0.125`) rounds back to `timestamp` itself, so
there the program's computed clamp degenerates to
`max(next_time, timestamp)` — see `execTasksClamped` and C10. -/
def execTasks (ts : ℚ) : List Task → EMState → EMState
  | [], st => st
  | f :: rest, st =>
    if f.ret ts ≠ 0 then execTasks ts rest (scheduleTask (max (f.ret ts) (ts + 1/20)) f st)
    else execTasks ts rest st

/-- The weight of one pending timestamp toward the loop budget: a task at
`t ≤ ct` can run at most `⌊(ct - t)·20⌋ + 1` more times. -/
def timeW (ct t : ℚ) : Nat := if t ≤ ct then 2 * (⌊(ct - t) * 20⌋).toNat + 2 else 0

/-- Budget contributed by the task dict. -/
def muTasks (ct : ℚ) (tasks : List (ℚ × List Task)) : Nat :=
  (tasks.map (fun p => p.2.length * timeW ct p.1)).sum

/-- Budget contributed by the heap. -/
def muTimes (ct : ℚ) (times : List ℚ) : Nat :=
  (times.filter (fun t => t ≤ ct)).length

/-- Iteration budget for `_run_until_current_time` in the exact-rational
model: strictly decreases at every loop iteration there, because each
exact re-schedule lands at least `0.05` later. -/
def mu (ct : ℚ) (st : EMState) : Nat := muTasks ct st.tasks + muTimes ct st.times

/-- One-to-one image of the `while` loop of `_run_until_current_time`
(event.py 33-47), with an explicit iteration budget `fuel` in place of the
unbounded `while`; the boolean records whether the loop ran to completion
within the budget.  `runUntilFuel_complete` proves the budget `mu + 1` is
never exhausted in this exact-arithmetic model (the float program is not
so lucky, see C10).  The returned list logs every task execution as
`(tid, popped timestamp)`. -/
def runUntilFuel (ct : ℚ) : Nat → EMState → EMState × List (Nat × ℚ) × Bool
  | 0, st =>
    match minTime st.times with
    | Option.none => (st, [], true)
    | some ts => if ts ≤ ct then (st, [], false) else (st, [], true)
  | fuel2 + 1, st =>
    match minTime st.times with
    | Option.none => (st, [], true)
    | some ts =>
      if ts ≤ ct then
        (fun r => (r.1, ((alookup st.tasks ts).getD []).map (fun f => (f.tid, ts)) ++ r.2.1,
            r.2.2))
          (runUntilFuel ct fuel2 (execTasks ts ((alookup st.tasks ts).getD [])
            { st with times := eraseTime ts st.times, tasks := eraseKey ts st.tasks }))
      else (st, [], true)

/-- `_run_until_current_time` (event.py 26-47). -/
def runUntil (ct : ℚ) (st : EMState) : EMState × List (Nat × ℚ) × Bool :=
  runUntilFuel ct (mu ct st + 1) st

/-- `run_cycle` (event.py 16-24): filter the one-shot acts, then run the
due scheduled tasks. -/
def runCycle (ct : ℚ) (st : EMState) : EMState × List (Nat × ℚ) × Bool :=
  runUntil ct { st with acts := st.acts.filter (fun b => !b) }

/-- `subscribe` (event.py 85-94): append `(func, persist)` to the event's
listener list (a `defaultdict`). -/
def subscribe (e : String) (f : Sub) (st : EMState) : EMState :=
  match alookup st.listeners e with
  | some l => { st with listeners := setEntry e (l ++ [f]) st.listeners }
  | Option.none => { st with listeners := st.listeners ++ [(e, [f])] }
where
  setEntry (k : String) (v : List Sub) : List (String × List Sub) → List (String × List Sub)
  | [] => []
  | (k2, w) :: rest => if k2 = k then (k2, v) :: rest else (k2, w) :: setEntry k v rest

/-- `list.remove(monitor)`: drop the first equal element. -/
def removeFirst (m : Sub) : List Sub → List Sub
  | [] => []
  | x :: rest => if x = m then rest else x :: removeFirst m rest

/-- The `for monitor in listeners.copy()` body of `trigger_event`
(event.py 57-62): invoke the monitor (= perform its subscriptions), then
remove it from the live list unless persistent; record the invocation. -/
def triggerAux (e : String) : List Sub → EMState → List Nat → EMState × List Nat
  | [], st, inv => (st, inv)
  | m :: snap, st, inv =>
    let st1 := m.spawns.foldl (fun s sp => subscribe e ⟨sp.1, sp.2, []⟩ s) st
    let st2 :=
      if m.persist then st1
      else
        let live := (alookup st1.listeners e).getD []
        { st1 with listeners := subscribe.setEntry e (removeFirst m live) st1.listeners }
    triggerAux e snap st2 (inv ++ [m.fid])

/-- `trigger_event` (event.py 49-62): iterate over a snapshot of the
current listener list. -/
def triggerEvent (e : String) (st : EMState) : EMState × List Nat :=
  match alookup st.listeners e with
  | Option.none => (st, [])
  | some snapshot => triggerAux e snapshot st []

/-- Number of occurrences of task id `tid` in a task dict. -/
def pcount (tid : Nat) (tasks : List (ℚ × List Task)) : Nat :=
  (tasks.map (fun p => (p.2.filter (fun f => f.tid = tid)).length)).sum

/-- Number of pending occurrences of task id `tid` in the task dict. -/
def pendingCount (tid : Nat) (st : EMState) : Nat := pcount tid st.tasks

/-- Every task with id `tid` in a task dict returns falsy at every
timestamp. -/
def AllFalsyT (tid : Nat) (tasks : List (ℚ × List Task)) : Prop :=
  ∀ p ∈ tasks, ∀ f ∈ p.2, f.tid = tid → ∀ x, f.ret x = 0

/-- Every pending task with id `tid` returns falsy at every timestamp. -/
def AllFalsy (tid : Nat) (st : EMState) : Prop := AllFalsyT tid st.tasks

/-- Occurrences of task id `tid` in an execution log. -/
def countLog (tid : Nat) (log : List (Nat × ℚ)) : Nat :=
  (log.filter (fun r => r.1 = tid)).length

/-- The disjointness property of claim C5: no command name is also an
alias name. -/
def regDisjoint (r : Registry) : Bool :=
  r.commands.all (fun p => (alookup r.aliases p.1).isNone)

/-- The task loop with the clamp computation abstracted.  The source
computes `max(next_time, timestamp + 0.05)` in binary floating point, so
the value of the clamp depends on the magnitude of `timestamp`:
`execTasks` is the exact instance `fun nt ts => max nt (ts + 1/20)`,
while for `timestamp ≥ 2^49` the float sum `timestamp + 0.05` rounds to
`timestamp` (the increment is below half an ulp of `0.125`), so the clamp
the program computes there is `fun nt ts => max nt ts`. -/
def execTasksClamped (clamp : ℚ → ℚ → ℚ) (ts : ℚ) : List Task → EMState → EMState
  | [], st => st
  | f :: rest, st =>
    if f.ret ts ≠ 0 then
      execTasksClamped clamp ts rest (scheduleTask (clamp (f.ret ts) ts) f st)
    else execTasksClamped clamp ts rest st

/-- `_run_until_current_time` with the clamp computation abstracted, used
to evaluate the loop under the clamp the float program computes at large
timestamps; `runUntilFuelClamped_exact` identifies the exact instance
with `runUntilFuel`. -/
def runUntilFuelClamped (clamp : ℚ → ℚ → ℚ) (ct : ℚ) :
    Nat → EMState → EMState × List (Nat × ℚ) × Bool
  | 0, st =>
    match minTime st.times with
    | Option.none => (st, [], true)
    | some ts => if ts ≤ ct then (st, [], false) else (st, [], true)
  | fuel2 + 1, st =>
    match minTime st.times with
    | Option.none => (st, [], true)
    | some ts =>
      if ts ≤ ct then
        (fun r => (r.1, ((alookup st.tasks ts).getD []).map (fun f => (f.tid, ts)) ++ r.2.1,
            r.2.2))
          (runUntilFuelClamped clamp ct fuel2 (execTasksClamped clamp ts
            ((alookup st.tasks ts).getD [])
            { st with times := eraseTime ts st.times, tasks := eraseKey ts st.tasks }))
      else (st, [], true)

/-!  ## Theorems  -/

/-- `subscriptInt` signals only `TypeError`, `IndexError` or `KeyError`. -/
theorem subscriptInt_exc (cur : PyObj) (i : Int) (e : PyExc)
    (h : subscriptInt cur i = .error e) :
    e = .typeError ∨ e = .indexError ∨ e = .keyError := by
  cases cur <;> simp only [subscriptInt] at h <;>
    repeat' split at h
  all_goals simp_all

/-- `getNext` on a string segment can only fail with the three caught
exception classes: both fallback branches raise `KeyError` or
`AttributeError`, and the numeric attempt only propagates `IndexError` or
`KeyError`. -/
theorem getNextFallback_exc (cur : PyObj) (s : String) (e : PyExc)
    (h : getNextFallback cur s = .error e) :
    e = .keyError ∨ e = .attributeError := by
  unfold getNextFallback at h
  cases cur <;> repeat' split at h
  all_goals simp_all

theorem getNext_str_caught (cur : PyObj) (s : String) (e : PyExc)
    (h : getNext cur (.s s) = .error e) :
    e = .indexError ∨ e = .keyError ∨ e = .attributeError := by
  simp only [getNext] at h
  rcases hp : pyIntOfString s with _ | i <;> rw [hp] at h <;> simp only [] at h
  · rcases getNextFallback_exc cur s e h with rfl | rfl <;> simp
  · cases hs : subscriptInt cur i with
    | ok v => rw [hs] at h; cases h
    | error e' =>
      rw [hs] at h
      rcases subscriptInt_exc cur i e' hs with rfl | rfl | rfl
      · simp only [] at h
        rcases getNextFallback_exc cur s e h with rfl | rfl <;> simp
      · cases h; simp
      · cases h; simp

/-- With only string segments, every failure of `resolveParts` is one of
the caught exception classes. -/
theorem resolveParts_str_caught (parts : List PyKey)
    (hs : ∀ p ∈ parts, ∃ s, p = PyKey.s s) :
    ∀ cur e, resolveParts cur parts = .error e →
      e = .indexError ∨ e = .keyError ∨ e = .attributeError := by
  induction parts with
  | nil => intro cur e h; simp [resolveParts] at h
  | cons p ps ih =>
    intro cur e h
    obtain ⟨s, rfl⟩ := hs p (List.mem_cons_self p ps)
    unfold resolveParts at h
    cases hg : getNext cur (.s s) with
    | ok v =>
      rw [hg] at h
      exact ih (fun q hq => hs q (List.mem_cons_of_mem _ hq)) v e h
    | error e' =>
      rw [hg] at h
      cases h
      exact getNext_str_caught cur s e hg

/-- C3 as written is false: `get` swallows only `IndexError`, `KeyError`
and `AttributeError`; an integer segment of a list path is indexed with no
surrounding `try`, so subscripting a non-subscriptable root raises
`TypeError` to the caller instead of returning the default.  Concretely
`PathResolver.get(None, [0], default=-1)` raises `TypeError`. -/
theorem C3_counterexample :
    pathGet PyObj.none (.listPath [.i 0]) (.int (-1)) = .error .typeError ∧
    pathGet PyObj.none (.listPath [.i 0]) (.int (-1)) ≠ .ok (.int (-1)) := by
  exact ⟨rfl, by simp [pathGet, normalizePath, resolveParts, getNext, subscriptInt]⟩

/-- C3 amended: `get` is a total soft lookup for every dotted-string path,
and for every segment-list path whose segments are all strings: resolution
failure at any segment yields the supplied default and no exception
reaches the caller.  (With integer segments a `TypeError` from
subscripting a non-subscriptable value escapes, see the counterexample.) -/
theorem C3_pathGet_soft_lookup :
    (∀ (obj : PyObj) (s : String) (d : PyObj),
      ∃ v, pathGet obj (.strPath s) d = .ok v) ∧
    (∀ (obj : PyObj) (parts : List PyKey) (d : PyObj),
      (∀ p ∈ parts, ∃ t, p = PyKey.s t) →
      ∃ v, pathGet obj (.listPath parts) d = .ok v) := by
  have key : ∀ (obj : PyObj) (parts : List PyKey) (d : PyObj),
      (∀ p ∈ parts, ∃ t, p = PyKey.s t) →
      ∃ v, pathGet obj (.listPath parts) d = .ok v := by
    intro obj parts d hs
    cases hr : resolveParts obj parts with
    | ok v => exact ⟨v, by simp [pathGet, normalizePath, hr]⟩
    | error e =>
      rcases resolveParts_str_caught parts hs obj e hr with rfl | rfl | rfl <;>
        exact ⟨d, by simp [pathGet, normalizePath, hr]⟩
  constructor
  · intro obj s d
    have hs : ∀ p ∈ ((splitDot s).map PyKey.s), ∃ t, p = PyKey.s t := by
      intro p hp
      simp only [List.mem_map] at hp
      obtain ⟨t, _, rfl⟩ := hp
      exact ⟨t, rfl⟩
    obtain ⟨v, hv⟩ := key obj ((splitDot s).map PyKey.s) d hs
    refine ⟨v, ?_⟩
    simpa [pathGet, normalizePath] using hv
  · intro obj parts d hs
    exact key obj parts d hs

/-- Witness for C3: a failing two-segment string path on a dict returns
the default `-1` instead of raising. -/
theorem C3_witness :
    ∃ v, pathGet (PyObj.dict [(.s "a", .int 7)]) (.strPath "missing.path") (.int (-1)) =
      .ok v :=
  C3_pathGet_soft_lookup.1 (PyObj.dict [(.s "a", .int 7)]) "missing.path" (.int (-1))

/-- C4 as written is false: for an all-digit segment against a mapping the
numeric indexing attempt is made first, but only `ValueError`/`TypeError`
from that attempt fall back to key lookup; the `KeyError` raised by
`{"1": v}[1]` propagates, so `get({"1": v}, "1", default)` returns the
default, not `v`.  (The class docstring itself says string digit keys are
unsupported.) -/
theorem C4_counterexample :
    pathGet (PyObj.dict [(.s "1", .int 42)]) (.strPath "1") (.int (-1)) = .ok (.int (-1)) ∧
    pathGet (PyObj.dict [(.s "1", .int 42)]) (.strPath "1") (.int (-1)) ≠ .ok (.int 42) := by
  exact ⟨rfl, by intro h; cases h⟩

/-- C4 amended: an all-digit string segment is always attempted as a
numeric index first, even against a mapping — the attempt reads the
integer key if present — but the fallback to mapping-key/attribute lookup
happens only when the indexing attempt raises `ValueError` or `TypeError`
(e.g. on an unsubscriptable instance); a `KeyError` or `IndexError` from
the attempt propagates, so `get({"1": v}, "1", default)` returns the
default. -/
theorem C4_digit_segment_order :
    (∀ (v w d : PyObj),
      pathGet (PyObj.dict [(.s "1", v), (.i 1, w)]) (.strPath "1") d = .ok w) ∧
    (∀ (v d : PyObj),
      pathGet (PyObj.dict [(.s "1", v)]) (.strPath "1") d = .ok d) ∧
    (∀ (v d : PyObj),
      pathGet (PyObj.obj [("7", v)]) (.strPath "7") d = .ok v) := by
  refine ⟨fun v w d => rfl, fun v d => rfl, fun v d => rfl⟩

/-- Reading a run of plain characters (no quote/backslash/`$`/`=`/space)
outside quotes just appends them to the current buffer. -/
theorem tokenizeAux_plain_run (ns : PyObj) :
    ∀ (l rest : List Char) (st : TokState), (∀ c ∈ l, Plain c) →
      st.inQuote = Option.none → st.escape = false →
      tokenizeAux ns st (l ++ rest) =
        tokenizeAux ns { st with current := st.current ++ l } rest := by
  intro l
  induction l with
  | nil => intro rest st _ _ _; simp
  | cons c l ih =>
    intro rest st hpl hq he
    have hc : Plain c := hpl c (List.mem_cons_self c l)
    simp only [Plain, Bool.not_eq_true', Bool.or_eq_false_iff, decide_eq_false_iff_not] at hc
    obtain ⟨⟨⟨⟨⟨hc1, hc2⟩, hc3⟩, hc4⟩, hc5⟩, hc6⟩ := hc
    rw [List.cons_append]
    rw [tokenizeAux]
    simp only [he, hq, hc1, hc2, hc3, hc4, hc5, hc6, Option.isSome_none, Bool.false_eq_true,
      if_false, or_self, false_and, and_false, ite_false]
    rw [ih rest _ (fun d hd => hpl d (List.mem_cons_of_mem c hd)) rfl rfl]
    simp [List.append_assoc]

/-- C2 corrected: an unquoted `=` with a non-empty buffer makes the buffer
the pending key, and the following characters form the value only up to
the next special character; in particular a second `=` inside the same
token starts a new key and discards the previous pending pair, so
`"a=b=c"` tokenizes to `[{"b": "c"}]`.  The first conjunct proves the rule
the claim intends on tokens whose value contains no further `=`. -/
theorem C2_key_value_rule :
    (∀ (ns : PyObj) (k v : List Char), k ≠ [] → v ≠ [] →
      (∀ c ∈ k, Plain c) → (∀ c ∈ v, Plain c) →
      tokenize ns (String.mk (k ++ '=' :: v)) =
        [.dict [(.s (String.mk k), .str (String.mk v))]]) ∧
    tokenize (PyObj.dict []) "a=b=c" = [.dict [(.s "b", .str "c")]] := by
  constructor
  · intro ns k v hk hv hpk hpv
    unfold tokenize initTokState
    rw [show (String.mk (k ++ '=' :: v)).data = k ++ '=' :: v from rfl]
    rw [tokenizeAux_plain_run ns k ('=' :: v) _ hpk rfl rfl]
    rw [tokenizeAux]
    simp only [List.nil_append]
    simp only [hk, ne_eq, not_false_eq_true, and_true, if_false, ite_true, Bool.false_eq_true,
      Option.isSome_none, show (('=' : Char) = '\\') = False by simp,
      show (('=' : Char) = '"' ∨ ('=' : Char) = '\'') = False by simp,
      show (('=' : Char) = '$') = False by simp, show (('=' : Char) = '=') = True by simp,
      false_and, true_and, ite_false]
    have hrun := tokenizeAux_plain_run ns v []
      { tokens := [], current := [], key := String.mk k, inQuote := Option.none,
        escape := false, valueProcess := true } hpv rfl rfl
    rw [List.append_nil] at hrun
    rw [hrun, tokenizeAux]
    simp [finishToken, hv]
  · simp [tokenize, tokenizeAux, initTokState, finishToken]

/-- Witness for C2: `"a=b"` yields the single mapping token `{"a": "b"}`. -/
theorem C2_witness :
    tokenize (PyObj.dict []) (String.mk (['a'] ++ '=' :: ['b'])) =
      [.dict [(.s (String.mk ['a']), .str (String.mk ['b']))]] :=
  C2_key_value_rule.1 (PyObj.dict []) ['a'] ['b'] (by decide) (by decide)
    (by decide) (by decide)

/-- C2 as written is false: tokenizing `"a=b=c"` yields `[{"b": "c"}]`,
not `[{"a": "b=c"}]` — the second `=` re-enters the key branch, replacing
the pending key `"a"` (and its partial value) with `"b"`. -/
theorem C2_counterexample :
    tokenize (PyObj.dict []) "a=b=c" = [.dict [(.s "b", .str "c")]] ∧
    tokenize (PyObj.dict []) "a=b=c" ≠ [.dict [(.s "a", .str "b=c")]] := by
  constructor
  · simp [tokenize, tokenizeAux, initTokState, finishToken]
  · simp [tokenize, tokenizeAux, initTokState, finishToken]

/-- C9 confirmed: once a quote `q` is open and the remaining input never
closes it, tokenization runs to completion (the function is total) and
every remaining character is consumed into the current token's content
(escapes still translated); the token is emitted only by the trailing
rule at end of input — i.e. only when the final content is non-empty, in
contrast to a closing-quote finalization, which emits unconditionally.
The second conjunct runs a whole input whose quote is never closed. -/
theorem C9_unterminated_quote :
    (∀ (ns : PyObj) (q : Char) (cs : List Char) (st : TokState),
      st.inQuote = some q → st.escape = false → noClose q cs = true →
      tokenizeAux ns st cs =
        st.tokens ++ trailingEmit st.valueProcess st.key (st.current ++ quoteContent cs)) ∧
    tokenize (PyObj.dict []) "ab \"cd ef" = [.str "ab", .str "cd ef"] := by
  constructor
  · intro ns q cs
    induction cs using quoteContent.induct with
    | case1 =>
      intro st hq he _
      rw [tokenizeAux]
      simp only [quoteContent, List.append_nil]
      by_cases hcur : st.current = [] <;>
        simp [finishToken, trailingEmit, hcur] <;>
        by_cases hvp : st.valueProcess <;> simp [hvp]
    | case2 =>
      intro st hq he _
      rw [tokenizeAux, if_neg (by simp [he]), if_pos rfl, tokenizeAux]
      simp only [quoteContent, List.append_nil]
      by_cases hcur : st.current = [] <;>
        simp [finishToken, trailingEmit, hcur] <;>
        by_cases hvp : st.valueProcess <;> simp [hvp]
    | case3 c2 rest2 ih =>
      intro st hq he hnc
      have hnc2 : noClose q rest2 = true := by
        simp only [noClose, if_pos rfl] at hnc
        exact hnc
      rw [tokenizeAux, if_neg (by simp [he]), if_pos rfl, tokenizeAux, if_pos rfl]
      dsimp only
      rw [ih ⟨st.tokens, st.current ++ [escMap c2], st.key, st.inQuote, false,
            st.valueProcess⟩ hq rfl hnc2]
      dsimp only
      rw [List.append_assoc]
      rfl
    | case4 c rest hcb ih =>
      intro st hq he hnc
      rw [noClose.eq_def] at hnc
      simp only [hcb, if_false, ite_false, Bool.and_eq_true, decide_eq_true_eq, ne_eq] at hnc
      obtain ⟨hcq, hnc'⟩ := hnc
      rw [tokenizeAux, if_neg (by simp [he]), if_neg hcb, hq]
      rw [if_pos (by simp), if_neg (fun h => hcq (Option.some.inj h).symm)]
      rw [ih ⟨st.tokens, st.current ++ [c], st.key, some q, st.escape,
            st.valueProcess⟩ rfl he hnc']
      dsimp only
      rw [List.append_assoc]
      rw [show quoteContent (c :: rest) = c :: quoteContent rest from by
        rw [quoteContent.eq_def]
        simp [hcb]]
      rfl
  · simp [tokenize, tokenizeAux, initTokState, finishToken]

/-- Witness for C9: from an open double quote with buffer `"c"`, the
remainder `"de f"` (which never closes the quote) is wholly consumed into
one trailing token. -/
theorem C9_witness :
    tokenizeAux (PyObj.dict [])
      { tokens := [.str "x"], current := ['c'], key := "", inQuote := some '"',
        escape := false, valueProcess := false } ['d', 'e', ' ', 'f'] =
      [.str "x"] ++ trailingEmit false "" (['c'] ++ quoteContent ['d', 'e', ' ', 'f']) :=
  C9_unterminated_quote.1 (PyObj.dict []) '"' ['d', 'e', ' ', 'f'] _ rfl rfl (by decide)

/-- C1 is right about the code's intent but the code violates it:
`_process_command_info` does precompute `short_help`/`full_help` at
registration, but `_show_command_help` never reads them — it recomputes
its output from the processed registry entry, whose keys no longer match
what it reads: the command help prints as `无说明`, every parameter prints
as `(可选)` with `说明: 无说明`, and the stored booleans are printed as
literal `*args: False` / `**kwargs: False` lines.  Evaluated here at the
built-in `help` command: the precomputed `full_help`, the lines `help
help` actually prints, and their disagreement. -/
theorem C1_help_not_precomputed :
    (alookup builtinRegistry.commands "help").map (fun i => i.fullHelp) =
      some "显示命令帮助信息\n\n参数:\n  command: str (可选)\n    默认值: None\n    说明: 要查看帮助的特定命令" ∧
    showCommandHelp builtinRegistry "help" =
      .ok ["命令: help", "说明: 无说明", "参数:", "  command: str (可选)",
           "    默认值: None", "    说明: 无说明", "  *args: False", "  **kwargs: False"] ∧
    "\n".intercalate ["命令: help", "说明: 无说明", "参数:", "  command: str (可选)",
           "    默认值: None", "    说明: 无说明", "  *args: False", "  **kwargs: False"] ≠
      "显示命令帮助信息\n\n参数:\n  command: str (可选)\n    默认值: None\n    说明: 要查看帮助的特定命令" :=
  ⟨rfl, rfl, by decide⟩

/-- C6 confirmed: with `greet(name: str, times: int = 1)` registered —
`times`, having a default, is keyword-only — `parse("greet Alice times=3")`
calls `greet` with `name="Alice"` and `times` coerced to the integer `3`;
`parse("greet times=3")` raises `ParamError` for the missing required
`name`; `parse("greet Alice Bob")` raises `ParamError` because `greet`
accepts no `*args` and has one positionable parameter. -/
theorem C6_greet_binding :
    parseBind greetRegistry (PyObj.dict []) "greet Alice times=3" =
      .ok (some ⟨"greet", [], [(.s "times", .int 3), (.s "name", .str "Alice")]⟩) ∧
    parseBind greetRegistry (PyObj.dict []) "greet times=3" =
      .error (.paramError "缺少必需参数: name") ∧
    parseBind greetRegistry (PyObj.dict []) "greet Alice Bob" =
      .error (.paramError "参数过多，最多支持 1 个位置参数") := by
  refine ⟨?_, ?_, ?_⟩
  · have htok : tokenize (PyObj.dict []) (pyStrip "greet Alice times=3") =
        [.str "greet", .str "Alice", .dict [(.s "times", .str "3")]] := by
      rw [show pyStrip "greet Alice times=3" = "greet Alice times=3" from by decide]
      simp [tokenize, tokenizeAux, initTokState, finishToken]
    unfold parseBind
    rw [if_neg (by decide), htok]
    rfl
  · have htok : tokenize (PyObj.dict []) (pyStrip "greet times=3") =
        [.str "greet", .dict [(.s "times", .str "3")]] := by
      rw [show pyStrip "greet times=3" = "greet times=3" from by decide]
      simp [tokenize, tokenizeAux, initTokState, finishToken]
    unfold parseBind
    rw [if_neg (by decide), htok]
    rfl
  · have htok : tokenize (PyObj.dict []) (pyStrip "greet Alice Bob") =
        [.str "greet", .str "Alice", .str "Bob"] := by
      rw [show pyStrip "greet Alice Bob" = "greet Alice Bob" from by decide]
      simp [tokenize, tokenizeAux, initTokState, finishToken]
    unfold parseBind
    rw [if_neg (by decide), htok]
    rfl

/-- Unfolding equation for `alookup` on a cons cell. -/
theorem alookup_cons {α β : Type} [DecidableEq α] (k : α) (v : β)
    (rest : List (α × β)) (x : α) :
    alookup ((k, v) :: rest) x = if k = x then some v else alookup rest x := rfl

/-- Membership in an association list makes lookup of that key succeed. -/
theorem alookup_isSome_of_mem {α β : Type} [DecidableEq α]
    {l : List (α × β)} {p : α × β} (h : p ∈ l) : (alookup l p.1).isSome := by
  induction l with
  | nil => cases h
  | cons q rest ih =>
    obtain ⟨k, v⟩ := q
    rcases List.mem_cons.mp h with h | h
    · subst h; simp [alookup_cons]
    · by_cases hk : k = p.1
      · simp [alookup_cons, hk]
      · simpa [alookup_cons, hk] using ih h

/-- Lookup through an append skips a prefix in which the key is absent. -/
theorem alookup_append_none {α β : Type} [DecidableEq α]
    (l1 l2 : List (α × β)) (x : α) (h : alookup l1 x = Option.none) :
    alookup (l1 ++ l2) x = alookup l2 x := by
  induction l1 with
  | nil => rfl
  | cons q rest ih =>
    obtain ⟨k, v⟩ := q
    by_cases hk : k = x
    · rw [alookup_cons, if_pos hk] at h; cases h
    · rw [alookup_cons, if_neg hk] at h
      rw [List.cons_append, alookup_cons, if_neg hk]
      exact ih h

/-- Removing an entry cannot make an absent key present. -/
theorem alookup_eraseKey_none {α β : Type} [DecidableEq α]
    (k x : α) (l : List (α × β)) (h : alookup l x = Option.none) :
    alookup (eraseKey k l) x = Option.none := by
  induction l with
  | nil => exact h
  | cons q rest ih =>
    obtain ⟨k2, v⟩ := q
    by_cases hx : k2 = x
    · rw [alookup_cons, if_pos hx] at h; cases h
    · rw [alookup_cons, if_neg hx] at h
      by_cases hk : k2 = k
      · rw [eraseKey, if_pos hk]
        exact h
      · rw [eraseKey, if_neg hk, alookup_cons, if_neg hx]
        exact ih h

/-- Entries of `eraseKey` come from the original list. -/
theorem mem_of_mem_eraseKey {α β : Type} [DecidableEq α]
    {k : α} {l : List (α × β)} {p : α × β} (h : p ∈ eraseKey k l) : p ∈ l := by
  induction l with
  | nil => simpa [eraseKey] using h
  | cons q rest ih =>
    obtain ⟨k2, v⟩ := q
    by_cases hk : k2 = k
    · rw [eraseKey, if_pos hk] at h
      exact List.mem_cons_of_mem _ h
    · rw [eraseKey, if_neg hk] at h
      rcases List.mem_cons.mp h with h | h
      · exact h ▸ List.mem_cons_self _ _
      · exact List.mem_cons_of_mem _ (ih h)

/-- Filtering cannot make an absent key present. -/
theorem alookup_filter_none {α β : Type} [DecidableEq α]
    (f : α × β → Bool) (x : α) (l : List (α × β)) (h : alookup l x = Option.none) :
    alookup (l.filter f) x = Option.none := by
  induction l with
  | nil => exact h
  | cons q rest ih =>
    obtain ⟨k2, v⟩ := q
    by_cases hx : k2 = x
    · rw [alookup_cons, if_pos hx] at h; cases h
    · rw [alookup_cons, if_neg hx] at h
      rw [List.filter_cons]
      by_cases hf : f (k2, v)
      · rw [if_pos hf, alookup_cons, if_neg hx]
        exact ih h
      · rw [if_neg hf]
        exact ih h

/-- C5 amended: the built-in registry satisfies the command/alias
disjointness, and every operation except `add_command` preserves it —
`_cmd_alias` refuses a missing target or a name colliding with an alias or
a command, leaving the registry unchanged on failure; `add_command`
preserves it only when the new name is not an existing alias, because it
checks the command dict alone (see the counterexample). -/
theorem C5_registry_disjointness :
    (regDisjoint builtinRegistry = true) ∧
    (∀ (a c : String) (r : Registry), regDisjoint r = true →
      regDisjoint (cmdAlias a c r).1 = true) ∧
    (∀ (a : String) (r : Registry), regDisjoint r = true →
      regDisjoint (cmdUnalias a r).1 = true) ∧
    (∀ (n : String) (r : Registry), regDisjoint r = true →
      regDisjoint (removeCommand n r).1 = true) ∧
    (∀ (n : String) (ci : CommandInfo) (r : Registry), regDisjoint r = true →
      (alookup r.aliases n).isNone →
      regDisjoint (addCommand n ci r).1 = true) ∧
    (∀ (a c : String) (r : Registry),
      ((cmdAlias a c r).2 = Option.none ↔
        (alookup r.commands c).isSome ∧ (alookup r.aliases a).isNone ∧
        (alookup r.commands a).isNone)) ∧
    (∀ (a c : String) (r : Registry),
      (cmdAlias a c r).2 ≠ Option.none → (cmdAlias a c r).1 = r) := by
  refine ⟨by decide, ?_, ?_, ?_, ?_, ?_, ?_⟩
  · intro a c r h
    unfold cmdAlias
    split
    · exact h
    · split
      · exact h
      · split
        · exact h
        · next h1 h2 h3 =>
          simp only [regDisjoint, List.all_eq_true] at h ⊢
          intro p hp
          have hpn : alookup r.aliases p.1 = Option.none :=
            Option.isNone_iff_eq_none.mp (h p hp)
          have hne : a ≠ p.1 := by
            intro he
            exact h3 (he ▸ alookup_isSome_of_mem hp)
          rw [alookup_append_none _ _ _ hpn, alookup_cons, if_neg hne]
          rfl
  · intro a r h
    unfold cmdUnalias
    split
    · exact h
    · simp only [regDisjoint, List.all_eq_true] at h ⊢
      intro p hp
      have hpn : alookup r.aliases p.1 = Option.none :=
        Option.isNone_iff_eq_none.mp (h p hp)
      rw [alookup_eraseKey_none _ _ _ hpn]
      rfl
  · intro n r h
    unfold removeCommand
    split
    · exact h
    · simp only [regDisjoint, List.all_eq_true] at h ⊢
      intro p hp
      have hpn : alookup r.aliases p.1 = Option.none :=
        Option.isNone_iff_eq_none.mp (h p (mem_of_mem_eraseKey hp))
      rw [alookup_filter_none _ _ _ hpn]
      rfl
  · intro n ci r h hn
    unfold addCommand
    split
    · exact h
    · simp only [regDisjoint, List.all_eq_true] at h ⊢
      intro p hp
      rcases List.mem_append.mp hp with hp | hp
      · exact h p hp
      · simp only [List.mem_singleton] at hp
        subst hp
        exact hn
  · intro a c r
    unfold cmdAlias
    constructor
    · intro hok
      split at hok
      · simp at hok
      · split at hok
        · simp at hok
        · split at hok
          · simp at hok
          · next h1 h2 h3 =>
            refine ⟨?_, ?_, ?_⟩
            · cases ho : alookup r.commands c with
              | none => rw [ho] at h1; simp at h1
              | some v => simp
            · cases ho : alookup r.aliases a with
              | none => simp
              | some v => rw [ho] at h2; simp at h2
            · cases ho : alookup r.commands a with
              | none => simp
              | some v => rw [ho] at h3; simp at h3
    · rintro ⟨h1, h2, h3⟩
      rw [Option.isNone_iff_eq_none] at h2 h3
      rw [if_neg (by
            rcases Option.isSome_iff_exists.mp h1 with ⟨v, hv⟩
            simp [hv]),
          if_neg (by simp [h2]), if_neg (by simp [h3])]
  · intro a c r herr
    by_cases h1 : (alookup r.commands c).isNone
    · simp [cmdAlias, h1]
    · by_cases h2 : (alookup r.aliases a).isSome
      · simp [cmdAlias, h1, h2]
      · by_cases h3 : (alookup r.commands a).isSome
        · simp [cmdAlias, h1, h2, h3]
        · exact absurd (by simp [cmdAlias, h1, h2, h3]) herr

/-- Witness for C5: aliasing `g -> help` on the built-in registry succeeds
and keeps the alias and command name sets disjoint. -/
theorem C5_witness :
    regDisjoint (cmdAlias "g" "help" builtinRegistry).1 = true :=
  C5_registry_disjointness.2.1 "g" "help" builtinRegistry (by decide)

/-- C5 as written is false: `add_command` checks only the command dict, so
`add_command("h", …)` succeeds on a fresh parser even though `h` is a
built-in alias of `help`, after which `h` is both an alias name and a
command name — the disjointness invariant is violated. -/
theorem C5_counterexample :
    (addCommand "h" greetCmdInfo builtinRegistry).2 = Option.none ∧
    (alookup (addCommand "h" greetCmdInfo builtinRegistry).1.commands "h").isSome = true ∧
    alookup (addCommand "h" greetCmdInfo builtinRegistry).1.aliases "h" = some "help" ∧
    regDisjoint (addCommand "h" greetCmdInfo builtinRegistry).1 = false := by
  refine ⟨rfl, by decide, by decide, by decide⟩

/-- C8 confirmed: with exactly two subscribers to an event — the first
persistent, the second not — one trigger invokes both exactly once (in
order), after which only the persistent subscriber remains registered, and
a second trigger invokes only it.  The second conjunct shows the snapshot
rule: a subscriber registered *during* the trigger (here by the persistent
callback) is not invoked this round, though it is registered afterwards. -/
theorem C8_subscription_lifecycle :
    (∀ (a b : Nat) (e : String),
      (triggerEvent e ⟨[], [(e, [⟨a, true, []⟩, ⟨b, false, []⟩])], [], []⟩).2 = [a, b] ∧
      alookup (triggerEvent e ⟨[], [(e, [⟨a, true, []⟩, ⟨b, false, []⟩])], [], []⟩).1.listeners e
        = some [⟨a, true, []⟩] ∧
      (triggerEvent e
        (triggerEvent e ⟨[], [(e, [⟨a, true, []⟩, ⟨b, false, []⟩])], [], []⟩).1).2 = [a]) ∧
    (∀ (a b c : Nat) (pc : Bool) (e : String),
      (triggerEvent e ⟨[], [(e, [⟨a, true, [(c, pc)]⟩, ⟨b, false, []⟩])], [], []⟩).2 = [a, b] ∧
      alookup (triggerEvent e
          ⟨[], [(e, [⟨a, true, [(c, pc)]⟩, ⟨b, false, []⟩])], [], []⟩).1.listeners e
        = some [⟨a, true, [(c, pc)]⟩, ⟨c, pc, []⟩]) := by
  constructor
  · intro a b e
    refine ⟨?_, ?_, ?_⟩ <;>
      simp [triggerEvent, triggerAux, subscribe, subscribe.setEntry, removeFirst,
        alookup_cons, Sub.mk.injEq]
  · intro a b c pc e
    refine ⟨?_, ?_⟩ <;>
      simp [triggerEvent, triggerAux, subscribe, subscribe.setEntry, removeFirst,
        alookup_cons, Sub.mk.injEq]

/-- The heap minimum is one of the pending timestamps. -/
theorem minTime_mem : ∀ (l : List ℚ) (t : ℚ), minTime l = some t → t ∈ l := by
  intro l
  induction l with
  | nil => intro t h; cases h
  | cons t2 rest ih =>
    intro t h
    rw [minTime] at h
    cases hm : minTime rest with
    | none => rw [hm] at h; cases h; exact List.mem_cons_self _ _
    | some m =>
      rw [hm] at h
      cases h
      rcases min_cases t2 m with ⟨he, _⟩ | ⟨he, _⟩
      · rw [he]; exact List.mem_cons_self _ _
      · rw [he]; exact List.mem_cons_of_mem _ (ih m hm)

/-- Popping a due timestamp lowers the heap budget by exactly one. -/
theorem muTimes_eraseTime (ct : ℚ) :
    ∀ (l : List ℚ) (t : ℚ), t ∈ l → t ≤ ct →
      muTimes ct (eraseTime t l) + 1 = muTimes ct l := by
  intro l
  induction l with
  | nil => intro t h; cases h
  | cons t2 rest ih =>
    intro t h hle
    by_cases h2 : t2 = t
    · rw [eraseTime, if_pos h2]
      subst h2
      simp [muTimes, List.filter_cons, hle]
    · have hmem : t ∈ rest := by
        rcases List.mem_cons.mp h with h | h
        · exact absurd h.symm h2
        · exact h
      rw [eraseTime, if_neg h2]
      simp only [muTimes, List.filter_cons]
      by_cases hc : t2 ≤ ct <;>
        simpa [hc] using ih t hmem hle

/-- Removing a timestamp's entry lowers the task budget by that entry's
contribution (first occurrence; our dicts have unique keys). -/
theorem muTasks_eraseKey (ct : ℚ) :
    ∀ (l : List (ℚ × List Task)) (ts : ℚ),
      muTasks ct (eraseKey ts l) + ((alookup l ts).getD []).length * timeW ct ts =
        muTasks ct l := by
  intro l
  induction l with
  | nil => intro ts; simp [muTasks, eraseKey, alookup]
  | cons p rest ih =>
    intro ts
    obtain ⟨t2, l2⟩ := p
    by_cases h2 : t2 = ts
    · subst h2
      rw [eraseKey, if_pos rfl, alookup_cons, if_pos rfl]
      simp [muTasks]
      ring
    · rw [eraseKey, if_neg h2, alookup_cons, if_neg h2]
      simp only [muTasks, List.map_cons, List.sum_cons]
      have := ih ts
      simp only [muTasks] at this
      omega

/-- Appending a task at a timestamp raises the task budget by one weight. -/
theorem muTasks_appendAt (ct : ℚ) :
    ∀ (l : List (ℚ × List Task)) (t : ℚ) (f : Task),
      muTasks ct (appendAt t f l) = muTasks ct l + timeW ct t := by
  intro l
  induction l with
  | nil => intro t f; simp [muTasks, appendAt]
  | cons p rest ih =>
    intro t f
    obtain ⟨t2, l2⟩ := p
    by_cases h2 : t2 = t
    · subst h2
      rw [appendAt, if_pos rfl]
      simp [muTasks]
      ring
    · rw [appendAt, if_neg h2]
      simp only [muTasks, List.map_cons, List.sum_cons]
      have := ih t f
      simp only [muTasks] at this
      omega

/-- The task budget is additive. -/
theorem muTasks_append (ct : ℚ) (l1 l2 : List (ℚ × List Task)) :
    muTasks ct (l1 ++ l2) = muTasks ct l1 + muTasks ct l2 := by
  simp [muTasks]

/-- A due timestamp has weight at least one. -/
theorem timeW_pos (ct ts : ℚ) (h : ts ≤ ct) : 1 ≤ timeW ct ts := by
  rw [timeW, if_pos h]
  omega

/-- Key inequality: a re-scheduled time `t' ≥ ts + 0.05` weighs strictly
less than the popped due time `ts`, with room for its heap entry. -/
theorem timeW_step (ct ts t2 : ℚ) (hts : ts ≤ ct) (ht2 : ts + 1/20 ≤ t2) :
    timeW ct t2 + (if t2 ≤ ct then 1 else 0) + 1 ≤ timeW ct ts := by
  rw [timeW, timeW, if_pos hts]
  by_cases h : t2 ≤ ct
  · rw [if_pos h, if_pos h]
    have h1 : (ct - t2) * 20 ≤ (ct - ts) * 20 - 1 := by linarith
    have h2 : ⌊(ct - t2) * 20⌋ ≤ ⌊(ct - ts) * 20⌋ - 1 := by
      calc ⌊(ct - t2) * 20⌋ ≤ ⌊(ct - ts) * 20 - 1⌋ := Int.floor_mono h1
        _ = ⌊(ct - ts) * 20⌋ - 1 := Int.floor_sub_one _
    have h3 : (0 : ℤ) ≤ ⌊(ct - t2) * 20⌋ :=
      Int.floor_nonneg.mpr (by nlinarith)
    omega
  · rw [if_neg h, if_neg h]
    omega

/-- `schedule_task` of a clamped re-execution time strictly repays the
weight of the popped timestamp. -/
theorem mu_scheduleTask (ct ts t2 : ℚ) (f : Task) (s : EMState)
    (hts : ts ≤ ct) (ht2 : ts + 1/20 ≤ t2) :
    mu ct (scheduleTask t2 f s) + 1 ≤ mu ct s + timeW ct ts := by
  have hkey := timeW_step ct ts t2 hts ht2
  rw [scheduleTask]
  by_cases hk : (alookup s.tasks t2).isSome
  · rw [if_pos hk]
    simp only [mu, muTasks_appendAt]
    omega
  · rw [if_neg hk]
    simp only [mu, muTasks_append]
    have htimes : muTimes ct (t2 :: s.times) =
        muTimes ct s.times + (if t2 ≤ ct then 1 else 0) := by
      simp only [muTimes, List.filter_cons]
      by_cases hc : t2 ≤ ct <;> simp [hc]
    rw [htimes]
    simp only [muTasks, List.map_cons, List.map_nil, List.sum_cons, List.sum_nil,
      List.length_singleton, one_mul]
    omega

/-- Executing a popped batch of `n` tasks costs at most `n` weights of the
popped timestamp, and strictly decreases the budget by one per task. -/
theorem mu_execTasks (ct ts : ℚ) (hts : ts ≤ ct) :
    ∀ (l : List Task) (s : EMState),
      mu ct (execTasks ts l s) + l.length ≤ mu ct s + l.length * timeW ct ts := by
  intro l
  induction l with
  | nil => intro s; simp [execTasks]
  | cons f rest ih =>
    intro s
    rw [execTasks]
    by_cases hr : f.ret ts ≠ 0
    · rw [if_pos hr]
      have h1 := mu_scheduleTask ct ts (max (f.ret ts) (ts + 1/20)) f s hts
        (le_max_right _ _)
      have h2 := ih (scheduleTask (max (f.ret ts) (ts + 1/20)) f s)
      simp only [List.length_cons]
      calc mu ct (execTasks ts rest (scheduleTask (max (f.ret ts) (ts + 1/20)) f s))
            + (rest.length + 1)
          ≤ mu ct (scheduleTask (max (f.ret ts) (ts + 1/20)) f s) + rest.length * timeW ct ts + 1 := by omega
        _ ≤ mu ct s + timeW ct ts + rest.length * timeW ct ts := by omega
        _ = mu ct s + (rest.length + 1) * timeW ct ts := by ring
    · rw [if_neg hr]
      have h2 := ih s
      have h3 := timeW_pos ct ts hts
      simp only [List.length_cons]
      calc mu ct (execTasks ts rest s) + (rest.length + 1)
          ≤ mu ct s + rest.length * timeW ct ts + 1 := by omega
        _ ≤ mu ct s + (rest.length + 1) * timeW ct ts := by
            have : rest.length * timeW ct ts + 1 ≤ (rest.length + 1) * timeW ct ts := by
              have : (rest.length + 1) * timeW ct ts =
                  rest.length * timeW ct ts + timeW ct ts := by ring
              omega
            omega

/-- One iteration of the scheduler loop strictly decreases the budget by
more than the number of executions it logs. -/
theorem mu_step (ct : ℚ) (st : EMState) (ts : ℚ)
    (hmin : minTime st.times = some ts) (hle : ts ≤ ct) :
    mu ct (execTasks ts ((alookup st.tasks ts).getD [])
      { st with times := eraseTime ts st.times, tasks := eraseKey ts st.tasks })
      + ((alookup st.tasks ts).getD []).length + 1 ≤ mu ct st := by
  have h1 := muTasks_eraseKey ct st.tasks ts
  have h2 := muTimes_eraseTime ct st.times ts (minTime_mem _ _ hmin) hle
  have hexec := mu_execTasks ct ts hle ((alookup st.tasks ts).getD [])
    { st with times := eraseTime ts st.times, tasks := eraseKey ts st.tasks }
  have hmid : mu ct { st with times := eraseTime ts st.times, tasks := eraseKey ts st.tasks }
      = muTasks ct (eraseKey ts st.tasks) + muTimes ct (eraseTime ts st.times) := rfl
  have hst : mu ct st = muTasks ct st.tasks + muTimes ct st.times := rfl
  rw [hmid] at hexec
  omega

/-- In the exact-rational model the budget really bounds the loop: with
`mu` iterations of fuel plus one, the loop reaches its exit (completion
flag `true`) and logs at most `mu` task executions.  This keeps the fuel
wrapper faithful to the `while` loop wherever exact arithmetic matches
the float run; it is a property of the idealized clamp, not of the float
program (C10 shows the float clamp defeats it). -/
theorem runUntilFuel_complete (ct : ℚ) :
    ∀ (fuel : Nat) (st : EMState), mu ct st < fuel →
      (runUntilFuel ct fuel st).2.2 = true ∧
      (runUntilFuel ct fuel st).2.1.length ≤ mu ct st := by
  intro fuel
  induction fuel with
  | zero => intro st h; exact absurd h (Nat.not_lt_zero _)
  | succ fuel ih =>
    intro st h
    cases hmin : minTime st.times with
    | none =>
      rw [runUntilFuel, hmin]
      exact ⟨rfl, Nat.zero_le _⟩
    | some ts =>
      by_cases hle : ts ≤ ct
      · have hstep := mu_step ct st ts hmin hle
        have hlt : mu ct (execTasks ts ((alookup st.tasks ts).getD [])
            { st with times := eraseTime ts st.times, tasks := eraseKey ts st.tasks })
            < fuel := by omega
        have ihr := ih _ hlt
        rw [runUntilFuel, hmin]
        dsimp only
        rw [if_pos hle]
        constructor
        · exact ihr.1
        · simp only [List.length_append, List.length_map]
          omega
      · rw [runUntilFuel, hmin]
        dsimp only
        rw [if_neg hle]
        exact ⟨rfl, Nat.zero_le _⟩

/-- A successful lookup locates an entry of the list. -/
theorem alookup_mem {α β : Type} [DecidableEq α] :
    ∀ (l : List (α × β)) (x : α) (v : β), alookup l x = some v → (x, v) ∈ l := by
  intro l
  induction l with
  | nil => intro x v h; cases h
  | cons q rest ih =>
    intro x v h
    obtain ⟨k, w⟩ := q
    by_cases hk : k = x
    · rw [alookup_cons, if_pos hk] at h
      cases h
      exact hk ▸ List.mem_cons_self _ _
    · rw [alookup_cons, if_neg hk] at h
      exact List.mem_cons_of_mem _ (ih x v h)

/-- Appending a task at a timestamp adds one occurrence of its id. -/
theorem pcount_appendAt (tid : Nat) :
    ∀ (l : List (ℚ × List Task)) (t : ℚ) (f : Task),
      pcount tid (appendAt t f l) =
        pcount tid l + (if f.tid = tid then 1 else 0) := by
  intro l
  induction l with
  | nil =>
    intro t f
    by_cases hf : f.tid = tid <;> simp [pcount, appendAt, List.filter_cons, hf]
  | cons p rest ih =>
    intro t f
    obtain ⟨t2, l2⟩ := p
    by_cases h2 : t2 = t
    · subst h2
      rw [appendAt, if_pos rfl]
      by_cases hf : f.tid = tid <;>
        simp [pcount, List.filter_append, List.filter_cons, hf] <;> omega
    · rw [appendAt, if_neg h2]
      simp only [pcount, List.map_cons, List.sum_cons]
      have := ih t f
      simp only [pcount] at this
      omega

/-- `schedule_task` adds one occurrence of the scheduled task's id. -/
theorem pendingCount_scheduleTask (tid : Nat) (t : ℚ) (f : Task) (s : EMState) :
    pendingCount tid (scheduleTask t f s) =
      pendingCount tid s + (if f.tid = tid then 1 else 0) := by
  rw [scheduleTask]
  by_cases hk : (alookup s.tasks t).isSome
  · rw [if_pos hk]
    have := pcount_appendAt tid s.tasks t f
    simpa [pendingCount] using this
  · rw [if_neg hk]
    by_cases hf : f.tid = tid <;>
      simp [pendingCount, pcount, List.filter_cons, hf]

/-- Removing a timestamp's entry removes exactly its occurrences. -/
theorem pcount_eraseKey (tid : Nat) :
    ∀ (l : List (ℚ × List Task)) (ts : ℚ),
      pcount tid (eraseKey ts l) +
        (((alookup l ts).getD []).filter (fun f => f.tid = tid)).length =
        pcount tid l := by
  intro l
  induction l with
  | nil => intro ts; simp [pcount, eraseKey, alookup]
  | cons p rest ih =>
    intro ts
    obtain ⟨t2, l2⟩ := p
    by_cases h2 : t2 = ts
    · subst h2
      rw [eraseKey, if_pos rfl, alookup_cons, if_pos rfl]
      simp [pcount]
      omega
    · rw [eraseKey, if_neg h2, alookup_cons, if_neg h2]
      simp only [pcount, List.map_cons, List.sum_cons]
      have := ih ts
      simp only [pcount] at this
      omega

/-- Executing a batch of falsy tasks re-schedules none of them, so the
pending occurrences of their id are unchanged. -/
theorem pendingCount_execTasks (tid : Nat) (ts : ℚ) :
    ∀ (l : List Task) (s : EMState),
      (∀ f ∈ l, f.tid = tid → ∀ x, f.ret x = 0) →
      pendingCount tid (execTasks ts l s) = pendingCount tid s := by
  intro l
  induction l with
  | nil => intro s _; rfl
  | cons f rest ih =>
    intro s hl
    rw [execTasks]
    by_cases hr : f.ret ts ≠ 0
    · rw [if_pos hr]
      have hf : ¬(f.tid = tid) := by
        intro he
        exact hr (hl f (List.mem_cons_self _ _) he ts)
      rw [ih _ (fun g hg => hl g (List.mem_cons_of_mem _ hg))]
      rw [pendingCount_scheduleTask, if_neg hf]
      omega
    · rw [if_neg hr]
      exact ih _ (fun g hg => hl g (List.mem_cons_of_mem _ hg))

/-- Falsyness of a task id survives `eraseKey`. -/
theorem AllFalsyT_eraseKey (tid : Nat) (ts : ℚ) (l : List (ℚ × List Task))
    (h : AllFalsyT tid l) : AllFalsyT tid (eraseKey ts l) :=
  fun p hp => h p (mem_of_mem_eraseKey hp)

/-- Falsyness of a task id survives appending a task that is falsy if it
carries the id. -/
theorem AllFalsyT_appendAt (tid : Nat) (t : ℚ) (f : Task)
    (hf : f.tid = tid → ∀ x, f.ret x = 0) :
    ∀ (l : List (ℚ × List Task)), AllFalsyT tid l → AllFalsyT tid (appendAt t f l) := by
  intro l
  induction l with
  | nil =>
    intro _ p hp g hg ht x
    simp only [appendAt, List.mem_singleton] at hp
    subst hp
    simp only [List.mem_singleton] at hg
    subst hg
    exact hf ht x
  | cons q rest ih =>
    intro h p hp g hg ht x
    obtain ⟨t2, l2⟩ := q
    by_cases h2 : t2 = t
    · rw [appendAt, if_pos h2] at hp
      rcases List.mem_cons.mp hp with hp | hp
      · subst hp
        rcases List.mem_append.mp hg with hg | hg
        · exact h (t2, l2) (List.mem_cons_self _ _) g hg ht x
        · simp only [List.mem_singleton] at hg
          subst hg
          exact hf ht x
      · exact h p (List.mem_cons_of_mem _ hp) g hg ht x
    · rw [appendAt, if_neg h2] at hp
      rcases List.mem_cons.mp hp with hp | hp
      · subst hp
        exact h (t2, l2) (List.mem_cons_self _ _) g hg ht x
      · exact ih (fun q hq => h q (List.mem_cons_of_mem _ hq)) p hp g hg ht x

/-- Falsyness of a task id survives `schedule_task` of such a task. -/
theorem AllFalsy_scheduleTask (tid : Nat) (t : ℚ) (f : Task) (s : EMState)
    (hs : AllFalsy tid s) (hf : f.tid = tid → ∀ x, f.ret x = 0) :
    AllFalsy tid (scheduleTask t f s) := by
  rw [scheduleTask]
  by_cases hk : (alookup s.tasks t).isSome
  · rw [if_pos hk]
    exact AllFalsyT_appendAt tid t f hf s.tasks hs
  · rw [if_neg hk]
    intro p hp g hg ht x
    rcases List.mem_append.mp hp with hp | hp
    · exact hs p hp g hg ht x
    · simp only [List.mem_singleton] at hp
      subst hp
      simp only [List.mem_singleton] at hg
      subst hg
      exact hf ht x

/-- Falsyness of a task id survives executing a batch of tasks that are
falsy when they carry the id. -/
theorem AllFalsy_execTasks (tid : Nat) (ts : ℚ) :
    ∀ (l : List Task) (s : EMState), AllFalsy tid s →
      (∀ f ∈ l, f.tid = tid → ∀ x, f.ret x = 0) →
      AllFalsy tid (execTasks ts l s) := by
  intro l
  induction l with
  | nil => intro s hs _; exact hs
  | cons f rest ih =>
    intro s hs hl
    rw [execTasks]
    by_cases hr : f.ret ts ≠ 0
    · rw [if_pos hr]
      exact ih _ (AllFalsy_scheduleTask tid _ f s hs (hl f (List.mem_cons_self _ _)))
        (fun g hg => hl g (List.mem_cons_of_mem _ hg))
    · rw [if_neg hr]
      exact ih _ hs (fun g hg => hl g (List.mem_cons_of_mem _ hg))

/-- Execution logs are counted additively. -/
theorem countLog_append (tid : Nat) (l1 l2 : List (Nat × ℚ)) :
    countLog tid (l1 ++ l2) = countLog tid l1 + countLog tid l2 := by
  simp [countLog, List.filter_append]

/-- The log of one popped batch counts exactly the batch's occurrences. -/
theorem countLog_map (tid : Nat) (ts : ℚ) :
    ∀ (l : List Task),
      countLog tid (l.map (fun f => (f.tid, ts))) =
        (l.filter (fun f => f.tid = tid)).length := by
  intro l
  induction l with
  | nil => rfl
  | cons f rest ih =>
    by_cases hf : f.tid = tid <;>
      simp [countLog, List.filter_cons, hf] <;>
      simpa [countLog] using ih

/-- Through the whole scheduler loop, every logged invocation of an
all-falsy task id consumes one pending occurrence and none is ever
re-added; falsyness of the id is preserved. -/
theorem runUntilFuel_falsy (ct : ℚ) (tid : Nat) :
    ∀ (fuel : Nat) (st : EMState), AllFalsy tid st →
      pendingCount tid (runUntilFuel ct fuel st).1 +
        countLog tid (runUntilFuel ct fuel st).2.1 = pendingCount tid st ∧
      AllFalsy tid (runUntilFuel ct fuel st).1 := by
  intro fuel
  induction fuel with
  | zero =>
    intro st h
    rw [runUntilFuel]
    cases hmin : minTime st.times with
    | none => exact ⟨rfl, h⟩
    | some ts =>
      dsimp only
      by_cases hle : ts ≤ ct
      · rw [if_pos hle]; exact ⟨rfl, h⟩
      · rw [if_neg hle]; exact ⟨rfl, h⟩
  | succ fuel ih =>
    intro st h
    rw [runUntilFuel]
    cases hmin : minTime st.times with
    | none => exact ⟨rfl, h⟩
    | some ts =>
      dsimp only
      by_cases hle : ts ≤ ct
      · rw [if_pos hle]
        dsimp only
        have hl : ∀ f ∈ (alookup st.tasks ts).getD [], f.tid = tid → ∀ x, f.ret x = 0 := by
          cases halo : alookup st.tasks ts with
          | none => intro f hf; simp at hf
          | some v =>
            intro f hf ht x
            exact h (ts, v) (alookup_mem _ _ _ halo) f (by simpa using hf) ht x
        have hmidAF : AllFalsy tid
            { st with times := eraseTime ts st.times, tasks := eraseKey ts st.tasks } :=
          AllFalsyT_eraseKey tid ts st.tasks h
        have hst1AF := AllFalsy_execTasks tid ts ((alookup st.tasks ts).getD [])
          { st with times := eraseTime ts st.times, tasks := eraseKey ts st.tasks }
          hmidAF hl
        have hcnt1 := pendingCount_execTasks tid ts ((alookup st.tasks ts).getD [])
          { st with times := eraseTime ts st.times, tasks := eraseKey ts st.tasks } hl
        have hcnt2 : pendingCount tid
              { st with times := eraseTime ts st.times, tasks := eraseKey ts st.tasks } +
            (((alookup st.tasks ts).getD []).filter (fun f => f.tid = tid)).length =
            pendingCount tid st :=
          pcount_eraseKey tid st.tasks ts
        have ihr := ih _ hst1AF
        constructor
        · rw [countLog_append, countLog_map]
          omega
        · exact ihr.2
      · rw [if_neg hle]
        exact ⟨rfl, h⟩


/-- If the earliest pending timestamp is beyond `current_time`, the loop
exits immediately regardless of remaining fuel. -/
theorem runUntilFuel_stop (ct : ℚ) (fuel : Nat) (st : EMState)
    (h : ∀ ts, minTime st.times = some ts → ¬ts ≤ ct) :
    runUntilFuel ct fuel st = (st, [], true) := by
  cases fuel with
  | zero =>
    rw [runUntilFuel]
    cases hm : minTime st.times with
    | none => rfl
    | some ts => dsimp only; rw [if_neg (h ts hm)]
  | succ n =>
    rw [runUntilFuel]
    cases hm : minTime st.times with
    | none => rfl
    | some ts => dsimp only; rw [if_neg (h ts hm)]

/-- One `run_cycle` over a single task due at `t` that requests a truthy
next time: the task runs once and is re-scheduled at the clamped time
`max(next, t + 0.05)`, which here lies beyond `current_time`. -/
theorem runCycle_single (ct t : ℚ) (f : Task) (hle : t ≤ ct) (hnz : f.ret t ≠ 0)
    (hstop : ¬(max (f.ret t) (t + 1/20) ≤ ct)) :
    runCycle ct ⟨[], [], [t], [(t, [f])]⟩ =
      (⟨[], [], [max (f.ret t) (t + 1/20)], [(max (f.ret t) (t + 1/20), [f])]⟩,
        [(f.tid, t)], true) := by
  have h1 : runCycle ct ⟨[], [], [t], [(t, [f])]⟩ =
      runUntilFuel ct (mu ct ⟨[], [], [t], [(t, [f])]⟩ + 1) ⟨[], [], [t], [(t, [f])]⟩ := rfl
  rw [h1, runUntilFuel]
  rw [show minTime [t] = some t from rfl]
  try dsimp only
  rw [if_pos hle]
  try dsimp only
  rw [show alookup [(t, [f])] t = some [f] from by rw [alookup_cons, if_pos rfl]]
  rw [show eraseTime t [t] = [] from by rw [eraseTime, if_pos rfl]]
  rw [show eraseKey t [(t, [f])] = [] from by rw [eraseKey, if_pos rfl]]
  try dsimp only [Option.getD]
  rw [execTasks, if_pos hnz, execTasks]
  rw [scheduleTask]
  rw [if_neg (by simp [alookup])]
  try dsimp only
  rw [runUntilFuel_stop]
  · rfl
  · intro ts hts
    rw [show minTime [max (f.ret t) (t + 1/20)] = some (max (f.ret t) (t + 1/20)) from rfl]
      at hts
    cases hts
    exact hstop

/-- C7 confirmed: a single task scheduled at `10` returning `10.02` is
executed exactly once by `run_cycle(10)` and re-scheduled at
`max(10.02, 10 + 0.05) = 10.05`, and `run_cycle(10.05)` executes it a
second time (the timestamps are decimals whose comparisons are exact, so
the rational model matches the float run).  And for an id all of whose
pending tasks return falsy, every `run_cycle` consumes pending
occurrences one-for-one with its invocations and re-adds none — so once
its pending count is exhausted no later `run_cycle` ever invokes the task
again — and the falsyness is preserved across cycles. -/
theorem C7_reschedule_clamp :
    ((runCycle 10 ⟨[], [], [10], [(10, [⟨0, fun _ => (501 : ℚ)/50⟩])]⟩).2.1 = [(0, 10)] ∧
     (runCycle 10 ⟨[], [], [10], [(10, [⟨0, fun _ => (501 : ℚ)/50⟩])]⟩).1 =
       ⟨[], [], [(201 : ℚ)/20], [((201 : ℚ)/20, [⟨0, fun _ => (501 : ℚ)/50⟩])]⟩ ∧
     (runCycle ((201 : ℚ)/20)
       (runCycle 10 ⟨[], [], [10], [(10, [⟨0, fun _ => (501 : ℚ)/50⟩])]⟩).1).2.1 =
       [(0, (201 : ℚ)/20)]) ∧
    (∀ (ct : ℚ) (st : EMState) (tid : Nat), AllFalsy tid st →
      pendingCount tid (runCycle ct st).1 + countLog tid (runCycle ct st).2.1 =
        pendingCount tid st ∧
      AllFalsy tid (runCycle ct st).1) := by
  constructor
  · have hret1 : (Task.mk 0 (fun _ => (501 : ℚ)/50)).ret 10 = 501/50 := rfl
    have hret2 : (Task.mk 0 (fun _ => (501 : ℚ)/50)).ret (201/20) = 501/50 := rfl
    have hmax1 : max ((501 : ℚ)/50) (10 + 1/20) = 201/20 := by
      rw [max_eq_right (by norm_num)]
      norm_num
    have hmax2 : max ((501 : ℚ)/50) (201/20 + 1/20) = 101/10 := by
      rw [max_eq_right (by norm_num)]
      norm_num
    have hnz1 : (Task.mk 0 (fun _ => (501 : ℚ)/50)).ret 10 ≠ 0 := by
      rw [hret1]
      norm_num
    have hnz2 : (Task.mk 0 (fun _ => (501 : ℚ)/50)).ret (201/20) ≠ 0 := by
      rw [hret2]
      norm_num
    have hstop1 : ¬(max ((Task.mk 0 (fun _ => (501 : ℚ)/50)).ret 10) (10 + 1/20) ≤ 10) := by
      rw [hret1, hmax1]
      norm_num
    have hstop2 : ¬(max ((Task.mk 0 (fun _ => (501 : ℚ)/50)).ret (201/20))
        (201/20 + 1/20) ≤ 201/20) := by
      rw [hret2, hmax2]
      norm_num
    have hc1 := runCycle_single 10 10 (Task.mk 0 (fun _ => (501 : ℚ)/50)) le_rfl hnz1 hstop1
    rw [hret1, hmax1] at hc1
    have hc2 := runCycle_single (201/20) (201/20) (Task.mk 0 (fun _ => (501 : ℚ)/50))
      le_rfl hnz2 hstop2
    rw [hret2, hmax2] at hc2
    refine ⟨by rw [hc1], by rw [hc1], ?_⟩
    rw [hc1]
    try dsimp only
    rw [hc2]
  · intro ct st tid h
    exact runUntilFuel_falsy ct tid _ _ h

/-- Witness for C7: a task with id `1` scheduled once at `10` that always
returns falsy is invoked by `run_cycle(20)` and leaves no pending
occurrence behind. -/
theorem C7_witness :
    pendingCount 1 (runCycle 20 ⟨[], [], [10], [(10, [⟨1, fun _ => 0⟩])]⟩).1 +
      countLog 1 (runCycle 20 ⟨[], [], [10], [(10, [⟨1, fun _ => 0⟩])]⟩).2.1 =
      pendingCount 1 ⟨[], [], [10], [(10, [⟨1, fun _ => 0⟩])]⟩ ∧
    AllFalsy 1 (runCycle 20 ⟨[], [], [10], [(10, [⟨1, fun _ => 0⟩])]⟩).1 :=
  C7_reschedule_clamp.2 20 ⟨[], [], [10], [(10, [⟨1, fun _ => 0⟩])]⟩ 1
    (by
      intro p hp f hf ht x
      simp only [List.mem_singleton] at hp
      subst hp
      simp only [List.mem_singleton] at hf
      subst hf
      rfl)

/-- The exact-rational clamp instance of the abstracted task loop is
exactly `execTasks`: the abstraction changes only the clamp computation. -/
theorem execTasksClamped_exact (ts : ℚ) :
    ∀ (l : List Task) (st : EMState),
      execTasksClamped (fun nt t => max nt (t + 1/20)) ts l st = execTasks ts l st := by
  intro l
  induction l with
  | nil => intro st; rfl
  | cons f rest ih =>
    intro st
    rw [execTasksClamped, execTasks]
    by_cases h : f.ret ts ≠ 0
    · rw [if_pos h, if_pos h]
      exact ih _
    · rw [if_neg h, if_neg h]
      exact ih _

/-- The exact-rational clamp instance of the abstracted loop is exactly
`runUntilFuel`, so `runUntilFuelClamped` really is the same `while` loop
with only the clamp computation varied. -/
theorem runUntilFuelClamped_exact (ct : ℚ) :
    ∀ (fuel : Nat) (st : EMState),
      runUntilFuelClamped (fun nt t => max nt (t + 1/20)) ct fuel st =
        runUntilFuel ct fuel st := by
  intro fuel
  induction fuel with
  | zero => intro st; rfl
  | succ n ih =>
    intro st
    rw [runUntilFuelClamped, runUntilFuel]
    cases hm : minTime st.times with
    | none => rfl
    | some ts =>
      dsimp only
      by_cases hle : ts ≤ ct
      · rw [if_pos hle, if_pos hle, execTasksClamped_exact, ih]
      · rw [if_neg hle, if_neg hle]

/-- C10 — code bug: the source computes the clamp
`max(next_time, timestamp + 0.05)` in binary floating point, and at
`timestamp = 2^49` the ulp is `0.125`, so the float sum
`timestamp + 0.05` rounds back to `timestamp` itself and the computed
clamp degenerates to `max(next_time, timestamp)`.  With one task pending
at `2^49` that returns its own (truthy) argument — interacting with the
scheduler only through its return value — every iteration of
`_run_until_current_time(2^49)` under that computed clamp pops `2^49`,
executes the task, and re-schedules it at exactly `2^49` again: for
every iteration budget the loop never reaches its exit (completion flag
`false`) and the pending state reproduces itself, so `run_cycle(2^49)`
executes the task infinitely often rather than the claimed finitely
many times. -/
theorem C10_float_no_progress_loop :
    ∀ fuel : Nat,
      (runUntilFuelClamped (fun nt ts => max nt ts) (2 ^ 49) fuel
          ⟨[], [], [(2 : ℚ) ^ 49], [((2 : ℚ) ^ 49, [⟨0, fun t => t⟩])]⟩).2.2 = false ∧
      (runUntilFuelClamped (fun nt ts => max nt ts) (2 ^ 49) fuel
          ⟨[], [], [(2 : ℚ) ^ 49], [((2 : ℚ) ^ 49, [⟨0, fun t => t⟩])]⟩).1 =
        ⟨[], [], [(2 : ℚ) ^ 49], [((2 : ℚ) ^ 49, [⟨0, fun t => t⟩])]⟩ := by
  intro fuel
  induction fuel with
  | zero =>
    rw [runUntilFuelClamped]
    rw [show minTime [(2 : ℚ) ^ 49] = some ((2 : ℚ) ^ 49) from rfl]
    try dsimp only
    rw [if_pos le_rfl]
    exact ⟨rfl, rfl⟩
  | succ n ih =>
    rw [runUntilFuelClamped]
    rw [show minTime [(2 : ℚ) ^ 49] = some ((2 : ℚ) ^ 49) from rfl]
    try dsimp only
    rw [if_pos le_rfl]
    try dsimp only
    rw [show alookup [((2 : ℚ) ^ 49, [Task.mk 0 (fun t => t)])] ((2 : ℚ) ^ 49) =
        some [Task.mk 0 (fun t => t)] from by rw [alookup_cons, if_pos rfl]]
    rw [show eraseTime ((2 : ℚ) ^ 49) [(2 : ℚ) ^ 49] = [] from by rw [eraseTime, if_pos rfl]]
    rw [show eraseKey ((2 : ℚ) ^ 49) [((2 : ℚ) ^ 49, [Task.mk 0 (fun t => t)])] = []
        from by rw [eraseKey, if_pos rfl]]
    try dsimp only [Option.getD]
    rw [execTasksClamped]
    rw [if_pos (show (Task.mk 0 (fun t => t)).ret ((2 : ℚ) ^ 49) ≠ 0 from by norm_num)]
    rw [execTasksClamped]
    try rw [show (fun nt ts => max nt ts) ((Task.mk 0 (fun t => t)).ret ((2 : ℚ) ^ 49))
        ((2 : ℚ) ^ 49) = (2 : ℚ) ^ 49 from max_self _]
    try rw [show max ((Task.mk 0 (fun t => t)).ret ((2 : ℚ) ^ 49)) ((2 : ℚ) ^ 49) =
        (2 : ℚ) ^ 49 from max_self _]
    try rw [show max ((2 : ℚ) ^ 49) ((2 : ℚ) ^ 49) = (2 : ℚ) ^ 49 from max_self _]
    rw [scheduleTask]
    rw [if_neg (by simp [alookup])]
    try dsimp only
    exact ⟨ih.1, ih.2⟩
